import Mathlib

/-!
Verification development for the month-sharded door-event metrics store
(metrics_storage.py) and its analytics derivations (routes_metrics.py).

Shallow embedding conventions:
- Python strings are List Char wrapped in String; byte-wise TEXT comparison
  (SQLite memcmp order) is modelled by charsCmp on code points (all compared
  data is ASCII, where UTF-8 byte order and code-point order coincide).
- datetime values are a DT record of six Nat fields; datetime.strptime
  validation is parseTs (shape plus calendar validity); strftime rendering is
  renderTs (zero-padded, width 4 for the year as in the 04d format used for
  month keys).
- The regex digit class and whitespace/lowercase operations are modelled over
  ASCII, which covers every string the claims exercise.
- Python exceptions are modelled with Except Unit: an error value means the
  corresponding Python code raises.
- The monthly SQLite databases are modelled as an association list from month
  key to the list of inserted rows; a missing key is a missing database file.
-/

/-- Three-way comparison on Nat, the model of byte comparison. -/
def cmpN (a b : Nat) : Ordering :=
  if a < b then .lt else if b < a then .gt else .eq

theorem cmpN_eq_iff {a b : Nat} : cmpN a b = .eq ↔ a = b := by
  unfold cmpN; split_ifs <;> simp <;> omega

theorem cmpN_lt_iff {a b : Nat} : cmpN a b = .lt ↔ a < b := by
  unfold cmpN; split_ifs <;> simp <;> omega

theorem cmpN_gt_iff {a b : Nat} : cmpN a b = .gt ↔ b < a := by
  unfold cmpN; split_ifs <;> simp <;> omega

theorem cmpN_self (a : Nat) : cmpN a a = .eq := by simp [cmpN_eq_iff]

theorem then_assoc (x y z : Ordering) : (x.then y).then z = x.then (y.then z) := by
  cases x <;> rfl

theorem then_eq_right (x : Ordering) : x.then .eq = x := by cases x <;> rfl

theorem eq_then (y : Ordering) : Ordering.eq.then y = y := rfl

theorem then_ne_gt {x y : Ordering} :
    x.then y ≠ .gt ↔ (x = .lt ∨ (x = .eq ∧ y ≠ .gt)) := by
  cases x <;> simp [Ordering.then]

/-- Combining two leading comparisons of a mixed-radix number into one. -/
theorem cmpN_pack {b b' B : Nat} (hb : b < B) (hb' : b' < B) (a a' : Nat) :
    (cmpN a a').then (cmpN b b') = cmpN (a * B + b) (a' * B + b') := by
  rcases Nat.lt_trichotomy a a' with h | h | h
  · rw [cmpN_lt_iff.mpr h]
    have : a * B + b < a' * B + b' := by
      have h1 : a * B + b < a * B + B := by omega
      have h2 : a * B + B = (a + 1) * B := by ring
      have h3 : (a + 1) * B ≤ a' * B := Nat.mul_le_mul_right B h
      omega
    rw [cmpN_lt_iff.mpr this]; rfl
  · subst h
    rw [cmpN_self, eq_then]
    rcases Nat.lt_trichotomy b b' with hb2 | hb2 | hb2
    · rw [cmpN_lt_iff.mpr hb2, cmpN_lt_iff.mpr (by omega)]
    · subst hb2; rw [cmpN_self, cmpN_self]
    · rw [cmpN_gt_iff.mpr hb2, cmpN_gt_iff.mpr (by omega)]
  · rw [cmpN_gt_iff.mpr h]
    have : a' * B + b' < a * B + b := by
      have h1 : a' * B + b' < a' * B + B := by omega
      have h2 : a' * B + B = (a' + 1) * B := by ring
      have h3 : (a' + 1) * B ≤ a * B := Nat.mul_le_mul_right B h
      omega
    rw [cmpN_gt_iff.mpr this]; rfl

theorem cmpN_pack_then {b b' B : Nat} (hb : b < B) (hb' : b' < B) (a a' : Nat)
    (o : Ordering) :
    (cmpN a a').then ((cmpN b b').then o) = (cmpN (a * B + b) (a' * B + b')).then o := by
  rw [← then_assoc, cmpN_pack hb hb']

/-- Byte-wise lexicographic comparison of character lists: the model of
memcmp-based TEXT ordering used by SQLite for the ts column. -/
def charsCmp : List Char → List Char → Ordering
  | [], [] => .eq
  | [], _ :: _ => .lt
  | _ :: _, [] => .gt
  | a :: as, b :: bs => (cmpN a.toNat b.toNat).then (charsCmp as bs)

theorem charsCmp_self : (l : List Char) → charsCmp l l = .eq
  | [] => rfl
  | a :: as => by simp [charsCmp, cmpN_self, eq_then, charsCmp_self as]

theorem charsCmp_trans_aux :
    ∀ (a b c : List Char), charsCmp a b ≠ .gt → charsCmp b c ≠ .gt → charsCmp a c ≠ .gt
  | [], b, c, _, _ => by
    cases c <;> simp [charsCmp]
  | a :: as, [], c, h1, _ => by
    simp [charsCmp] at h1
  | a :: as, b :: bs, [], _, h2 => by
    simp [charsCmp] at h2
  | a :: as, b :: bs, c :: cs, h1, h2 => by
    simp only [charsCmp] at h1 h2 ⊢
    rw [then_ne_gt] at h1 h2 ⊢
    rcases h1 with h1 | ⟨h1e, h1r⟩ <;> rcases h2 with h2 | ⟨h2e, h2r⟩
    · exact Or.inl (cmpN_lt_iff.mpr (lt_trans (cmpN_lt_iff.mp h1) (cmpN_lt_iff.mp h2)))
    · exact Or.inl (by rw [cmpN_lt_iff] at h1 ⊢; rw [cmpN_eq_iff] at h2e; omega)
    · exact Or.inl (by rw [cmpN_lt_iff] at h2 ⊢; rw [cmpN_eq_iff] at h1e; omega)
    · refine Or.inr ⟨by rw [cmpN_eq_iff] at h1e h2e ⊢; omega, ?_⟩
      exact charsCmp_trans_aux as bs cs h1r h2r

theorem charsCmp_total (a b : List Char) :
    charsCmp a b ≠ .gt ∨ charsCmp b a ≠ .gt := by
  induction a generalizing b with
  | nil => cases b <;> simp [charsCmp]
  | cons x xs ih =>
    cases b with
    | nil => simp [charsCmp]
    | cons y ys =>
      simp only [charsCmp]
      rcases Nat.lt_trichotomy x.toNat y.toNat with h | h | h
      · left; rw [then_ne_gt]; exact Or.inl (cmpN_lt_iff.mpr h)
      · rcases ih ys with hh | hh
        · left; rw [then_ne_gt]; exact Or.inr ⟨cmpN_eq_iff.mpr h, hh⟩
        · right; rw [then_ne_gt]; exact Or.inr ⟨cmpN_eq_iff.mpr h.symm, hh⟩
      · right; rw [then_ne_gt]; exact Or.inl (cmpN_lt_iff.mpr h)

/-- String comparison in storage order (Bool form used by query filters). -/
def tsLeB (s t : String) : Bool := charsCmp s.data t.data ≠ .gt

theorem tsLeB_trans {a b c : String} (h1 : tsLeB a b = true) (h2 : tsLeB b c = true) :
    tsLeB a c = true := by
  simp only [tsLeB, decide_eq_true_eq] at h1 h2 ⊢
  exact charsCmp_trans_aux _ _ _ h1 h2

theorem tsLeB_total (a b : String) : tsLeB a b = true ∨ tsLeB b a = true := by
  simp only [tsLeB, decide_eq_true_eq]
  exact charsCmp_total _ _

/-! ## Calendar arithmetic (model of the datetime module facts the code uses) -/

/-- Gregorian leap-year test. -/
def isLeapYear (y : Nat) : Bool := (y % 4 = 0 && y % 100 ≠ 0) || (y % 400 = 0)

theorem isLeapYear_iff (y : Nat) :
    isLeapYear y = true ↔ ((y % 4 = 0 ∧ y % 100 ≠ 0) ∨ y % 400 = 0) := by
  simp [isLeapYear]

def daysInYear (y : Nat) : Nat := if isLeapYear y then 366 else 365

/-- Length of a month, parameterised by the leap flag of its year. -/
def monthLen (leap : Bool) (m : Nat) : Nat :=
  if m = 2 then (if leap then 29 else 28)
  else if m = 4 ∨ m = 6 ∨ m = 9 ∨ m = 11 then 30
  else 31

/-- Days in the months strictly before month m of a year with leap flag leap. -/
def cumDays (leap : Bool) : Nat → Nat
  | 0 => 0
  | 1 => 0
  | Nat.succ m => cumDays leap m + monthLen leap m

def daysInMonth (y m : Nat) : Nat := monthLen (isLeapYear y) m

def daysBeforeMonth (y m : Nat) : Nat := cumDays (isLeapYear y) m

/-- Days in the years 1..y (closed form; the leap count of the proleptic
Gregorian calendar used by the datetime module). -/
def daysUpto (y : Nat) : Nat := 365 * y + y / 4 - y / 100 + y / 400

set_option maxHeartbeats 1000000 in
theorem daysUpto_succ (y : Nat) : daysUpto (y + 1) = daysUpto y + daysInYear (y + 1) := by
  unfold daysInYear
  by_cases hc : (((y + 1) % 4 = 0 ∧ (y + 1) % 100 ≠ 0) ∨ (y + 1) % 400 = 0)
  · rw [if_pos ((isLeapYear_iff _).mpr hc)]
    unfold daysUpto; omega
  · rw [if_neg (fun h => hc ((isLeapYear_iff _).mp h))]
    unfold daysUpto; omega

theorem daysUpto_mono {a b : Nat} (h : a ≤ b) : daysUpto a ≤ daysUpto b := by
  unfold daysUpto
  have h4 : a / 4 ≤ b / 4 := Nat.div_le_div_right h
  have h100 : a / 100 ≤ b / 100 := Nat.div_le_div_right h
  have h400 : a / 400 ≤ b / 400 := Nat.div_le_div_right h
  have hx : a / 100 ≤ 365 * a + a / 4 := by
    have := Nat.div_le_self a 100
    omega
  have hy : b / 100 ≤ 365 * b + b / 4 := by
    have := Nat.div_le_self b 100
    omega
  omega

/-- Simple timestamp record mirroring a second-precision datetime value. -/
structure DT where
  year : Nat
  month : Nat
  day : Nat
  hour : Nat
  minute : Nat
  second : Nat
deriving DecidableEq, Repr

/-- Calendar validity as enforced by datetime.strptime. -/
def validDT (d : DT) : Prop :=
  1 ≤ d.year ∧ d.year ≤ 9999 ∧ 1 ≤ d.month ∧ d.month ≤ 12 ∧
  1 ≤ d.day ∧ d.day ≤ daysInMonth d.year d.month ∧
  d.hour ≤ 23 ∧ d.minute ≤ 59 ∧ d.second ≤ 59

instance (d : DT) : Decidable (validDT d) := by unfold validDT; infer_instance

/-- Mixed-radix packing of the six fields with radix 100 per two-digit field:
for 19-character digit-shaped timestamp strings, byte order of the string
equals Nat order of this key. -/
def dtKey (d : DT) : Nat :=
  ((((d.year * 100 + d.month) * 100 + d.day) * 100 + d.hour) * 100 + d.minute) * 100
    + d.second

/-- Day index in the proleptic Gregorian calendar, day 0 = 0001-01-01 (a
Monday, as in the datetime module). -/
def dayNumber (d : DT) : Nat :=
  daysUpto (d.year - 1) + daysBeforeMonth d.year d.month + (d.day - 1)

/-- Seconds since 0001-01-01 00:00:00; differences of this model
 timedelta.total_seconds on second-precision datetimes. -/
def secs (d : DT) : Nat :=
  dayNumber d * 86400 + (d.hour * 3600 + d.minute * 60 + d.second)

/-! ## Rendering and parsing of timestamp strings -/

/-- ASCII decimal digit test (the regex digit class over the data in scope). -/
def isDigitC (c : Char) : Bool := 48 ≤ c.toNat && c.toNat ≤ 57

def digitVal (c : Char) : Nat := c.toNat - 48

def pad2 (n : Nat) : List Char := [Nat.digitChar (n / 10), Nat.digitChar (n % 10)]

def pad4 (n : Nat) : List Char := pad2 (n / 100) ++ pad2 (n % 100)

/-- Characters of the fixed-format timestamp rendering (strftime with the
zero-padded Y-m-d H:M:S directives). -/
def renderChars (d : DT) : List Char :=
  pad4 d.year ++ '-' :: (pad2 d.month ++ '-' :: (pad2 d.day ++ ' ' ::
    (pad2 d.hour ++ ':' :: (pad2 d.minute ++ ':' :: pad2 d.second))))

def renderTs (d : DT) : String := ⟨renderChars d⟩

/-- Month-key string in YYYY-MM form (strftime %Y-%m and the 04d-02d format
of month_keys_in_range). -/
def fmtMonth (y m : Nat) : String := ⟨pad4 y ++ '-' :: pad2 m⟩

def monthKeyStr (d : DT) : String := fmtMonth d.year d.month

/-- Field extraction from a 19-character digit-shaped timestamp string
(shape part of strptime for the format used everywhere in the code). -/
def extractDT : List Char → Option DT
  | [y1, y2, y3, y4, c1, a1, a2, c2, b1, b2, c3, h1, h2, c4, i1, i2, c5, e1, e2] =>
    if isDigitC y1 && isDigitC y2 && isDigitC y3 && isDigitC y4 &&
       isDigitC a1 && isDigitC a2 && isDigitC b1 && isDigitC b2 &&
       isDigitC h1 && isDigitC h2 && isDigitC i1 && isDigitC i2 &&
       isDigitC e1 && isDigitC e2 &&
       c1 = '-' && c2 = '-' && c3 = ' ' && c4 = ':' && c5 = ':' then
      some ⟨((digitVal y1 * 10 + digitVal y2) * 10 + digitVal y3) * 10 + digitVal y4,
            digitVal a1 * 10 + digitVal a2,
            digitVal b1 * 10 + digitVal b2,
            digitVal h1 * 10 + digitVal h2,
            digitVal i1 * 10 + digitVal i2,
            digitVal e1 * 10 + digitVal e2⟩
    else none
  | _ => none

/-- Model of datetime.strptime on the fixed format: shape and calendar
validity, returning the parsed value on success and none where the Python
call raises ValueError. -/
def parseTs (l : List Char) : Option DT :=
  match extractDT l with
  | some d => if validDT d then some d else none
  | none => none

theorem digitVal_lt {c : Char} (h : isDigitC c = true) : digitVal c < 10 := by
  simp only [isDigitC, Bool.and_eq_true, decide_eq_true_eq] at h
  unfold digitVal; omega

theorem cmpN_digit {c c' : Char} (h : isDigitC c = true) (h' : isDigitC c' = true) :
    cmpN c.toNat c'.toNat = cmpN (digitVal c) (digitVal c') := by
  simp only [isDigitC, Bool.and_eq_true, decide_eq_true_eq] at h h'
  unfold digitVal cmpN
  split_ifs <;> first | rfl | omega

theorem extractDT_shape {l : List Char} {d : DT} (h : extractDT l = some d) :
    ∃ y1 y2 y3 y4 a1 a2 b1 b2 h1 h2 i1 i2 e1 e2,
      l = [y1, y2, y3, y4, '-', a1, a2, '-', b1, b2, ' ',
           h1, h2, ':', i1, i2, ':', e1, e2] ∧
      (isDigitC y1 = true ∧ isDigitC y2 = true ∧ isDigitC y3 = true ∧
       isDigitC y4 = true ∧ isDigitC a1 = true ∧ isDigitC a2 = true ∧
       isDigitC b1 = true ∧ isDigitC b2 = true ∧ isDigitC h1 = true ∧
       isDigitC h2 = true ∧ isDigitC i1 = true ∧ isDigitC i2 = true ∧
       isDigitC e1 = true ∧ isDigitC e2 = true) ∧
      d = ⟨((digitVal y1 * 10 + digitVal y2) * 10 + digitVal y3) * 10 + digitVal y4,
           digitVal a1 * 10 + digitVal a2,
           digitVal b1 * 10 + digitVal b2,
           digitVal h1 * 10 + digitVal h2,
           digitVal i1 * 10 + digitVal i2,
           digitVal e1 * 10 + digitVal e2⟩ := by
  rcases l with _ | ⟨y1, l⟩
  case nil => exact Option.noConfusion h
  rcases l with _ | ⟨y2, l⟩
  case nil => exact Option.noConfusion h
  rcases l with _ | ⟨y3, l⟩
  case nil => exact Option.noConfusion h
  rcases l with _ | ⟨y4, l⟩
  case nil => exact Option.noConfusion h
  rcases l with _ | ⟨c1, l⟩
  case nil => exact Option.noConfusion h
  rcases l with _ | ⟨a1, l⟩
  case nil => exact Option.noConfusion h
  rcases l with _ | ⟨a2, l⟩
  case nil => exact Option.noConfusion h
  rcases l with _ | ⟨c2, l⟩
  case nil => exact Option.noConfusion h
  rcases l with _ | ⟨b1, l⟩
  case nil => exact Option.noConfusion h
  rcases l with _ | ⟨b2, l⟩
  case nil => exact Option.noConfusion h
  rcases l with _ | ⟨c3, l⟩
  case nil => exact Option.noConfusion h
  rcases l with _ | ⟨h1, l⟩
  case nil => exact Option.noConfusion h
  rcases l with _ | ⟨h2, l⟩
  case nil => exact Option.noConfusion h
  rcases l with _ | ⟨c4, l⟩
  case nil => exact Option.noConfusion h
  rcases l with _ | ⟨i1, l⟩
  case nil => exact Option.noConfusion h
  rcases l with _ | ⟨i2, l⟩
  case nil => exact Option.noConfusion h
  rcases l with _ | ⟨c5, l⟩
  case nil => exact Option.noConfusion h
  rcases l with _ | ⟨e1, l⟩
  case nil => exact Option.noConfusion h
  rcases l with _ | ⟨e2, l⟩
  case nil => exact Option.noConfusion h
  rcases l with _ | ⟨z, tl⟩
  case cons => exact Option.noConfusion h
  rw [extractDT] at h
  split at h
  case isFalse => exact Option.noConfusion h
  case isTrue hcond =>
    simp only [Bool.and_eq_true, decide_eq_true_eq, and_assoc] at hcond
    obtain ⟨hy1, hy2, hy3, hy4, ha1, ha2, hb1, hb2, hh1, hh2, hi1, hi2, he1, he2,
      hc1, hc2, hc3, hc4, hc5⟩ := hcond
    subst hc1; subst hc2; subst hc3; subst hc4; subst hc5
    exact ⟨y1, y2, y3, y4, a1, a2, b1, b2, h1, h2, i1, i2, e1, e2, rfl,
      ⟨hy1, hy2, hy3, hy4, ha1, ha2, hb1, hb2, hh1, hh2, hi1, hi2, he1, he2⟩,
      (Option.some.inj h).symm⟩

theorem charsCmp_extract {s t : List Char} {d e : DT}
    (hs : extractDT s = some d) (ht : extractDT t = some e) :
    charsCmp s t = cmpN (dtKey d) (dtKey e) := by
  obtain ⟨y1, y2, y3, y4, a1, a2, b1, b2, h1, h2, i1, i2, e1, e2, hl, hdig, hd⟩ :=
    extractDT_shape hs
  obtain ⟨y5, y6, y7, y8, a3, a4, b3, b4, h3, h4, i3, i4, e3, e4, hl2, hdig2, hd2⟩ :=
    extractDT_shape ht
  obtain ⟨dy1, dy2, dy3, dy4, da1, da2, db1, db2, dh1, dh2, di1, di2, de1, de2⟩ := hdig
  obtain ⟨dy5, dy6, dy7, dy8, da3, da4, db3, db4, dh3, dh4, di3, di4, de3, de4⟩ := hdig2
  subst hl; subst hl2; subst hd; subst hd2
  have hMo : digitVal a1 * 10 + digitVal a2 < 100 := by
    have := digitVal_lt da1; have := digitVal_lt da2; omega
  have hMo2 : digitVal a3 * 10 + digitVal a4 < 100 := by
    have := digitVal_lt da3; have := digitVal_lt da4; omega
  have hDd : digitVal b1 * 10 + digitVal b2 < 100 := by
    have := digitVal_lt db1; have := digitVal_lt db2; omega
  have hDd2 : digitVal b3 * 10 + digitVal b4 < 100 := by
    have := digitVal_lt db3; have := digitVal_lt db4; omega
  have hHh : digitVal h1 * 10 + digitVal h2 < 100 := by
    have := digitVal_lt dh1; have := digitVal_lt dh2; omega
  have hHh2 : digitVal h3 * 10 + digitVal h4 < 100 := by
    have := digitVal_lt dh3; have := digitVal_lt dh4; omega
  have hMi : digitVal i1 * 10 + digitVal i2 < 100 := by
    have := digitVal_lt di1; have := digitVal_lt di2; omega
  have hMi2 : digitVal i3 * 10 + digitVal i4 < 100 := by
    have := digitVal_lt di3; have := digitVal_lt di4; omega
  have hSs : digitVal e1 * 10 + digitVal e2 < 100 := by
    have := digitVal_lt de1; have := digitVal_lt de2; omega
  have hSs2 : digitVal e3 * 10 + digitVal e4 < 100 := by
    have := digitVal_lt de3; have := digitVal_lt de4; omega
  simp only [charsCmp]
  simp only [cmpN_self, eq_then, then_eq_right]
  rw [cmpN_digit dy1 dy5, cmpN_digit dy2 dy6, cmpN_digit dy3 dy7, cmpN_digit dy4 dy8,
    cmpN_digit da1 da3, cmpN_digit da2 da4, cmpN_digit db1 db3, cmpN_digit db2 db4,
    cmpN_digit dh1 dh3, cmpN_digit dh2 dh4, cmpN_digit di1 di3, cmpN_digit di2 di4,
    cmpN_digit de1 de3, cmpN_digit de2 de4]
  rw [cmpN_pack_then (digitVal_lt dy2) (digitVal_lt dy6)]
  rw [cmpN_pack_then (digitVal_lt dy3) (digitVal_lt dy7)]
  rw [cmpN_pack_then (digitVal_lt dy4) (digitVal_lt dy8)]
  rw [cmpN_pack_then (digitVal_lt da2) (digitVal_lt da4)]
  rw [cmpN_pack_then hMo hMo2]
  rw [cmpN_pack_then (digitVal_lt db2) (digitVal_lt db4)]
  rw [cmpN_pack_then hDd hDd2]
  rw [cmpN_pack_then (digitVal_lt dh2) (digitVal_lt dh4)]
  rw [cmpN_pack_then hHh hHh2]
  rw [cmpN_pack_then (digitVal_lt di2) (digitVal_lt di4)]
  rw [cmpN_pack_then hMi hMi2]
  rw [cmpN_pack (digitVal_lt de2) (digitVal_lt de4)]
  rw [cmpN_pack hSs hSs2]
  rfl

/-! ## Calendar order facts -/

/-- Lexicographic strict order on the six timestamp fields. -/
def lexLt (d e : DT) : Prop :=
  d.year < e.year ∨ (d.year = e.year ∧
    (d.month < e.month ∨ (d.month = e.month ∧
      (d.day < e.day ∨ (d.day = e.day ∧
        (d.hour < e.hour ∨ (d.hour = e.hour ∧
          (d.minute < e.minute ∨ (d.minute = e.minute ∧
            d.second < e.second)))))))))

theorem lexLt_trichotomy (d e : DT) : lexLt d e ∨ d = e ∨ lexLt e d := by
  obtain ⟨y, mo, dd, hh, mi, ss⟩ := d
  obtain ⟨y2, mo2, dd2, hh2, mi2, ss2⟩ := e
  simp only [lexLt, DT.mk.injEq]
  omega

theorem monthLen_le (leap : Bool) (m : Nat) : monthLen leap m ≤ 31 := by
  unfold monthLen; split_ifs <;> omega

theorem monthLen_pos (leap : Bool) (m : Nat) : 1 ≤ monthLen leap m := by
  unfold monthLen; split_ifs <;> omega

theorem cum_gap : ∀ (leap : Bool), ∀ mo < 13, ∀ mo2 < 13, 1 ≤ mo → mo < mo2 →
    cumDays leap mo + monthLen leap mo ≤ cumDays leap mo2 := by decide

theorem cum_bound : ∀ (leap : Bool), ∀ mo < 13, ∀ dd < 32, 1 ≤ mo → 1 ≤ dd →
    dd ≤ monthLen leap mo →
    cumDays leap mo + (dd - 1) < (if leap then 366 else 365) := by decide

theorem cum_year (leap : Bool) : cumDays leap 12 + monthLen leap 12 =
    (if leap then 366 else 365) := by cases leap <;> decide

theorem cumDays_succ (leap : Bool) {m : Nat} (h : 1 ≤ m) :
    cumDays leap (m + 1) = cumDays leap m + monthLen leap m := by
  match m, h with
  | Nat.succ k, _ => rfl

theorem daysInYear_eq (y : Nat) : daysInYear y = (if isLeapYear y then 366 else 365) := rfl

/-- Strict monotonicity of the day index with respect to date order. -/
theorem dayNumber_lt {d e : DT} (hd : validDT d) (he : validDT e)
    (h : d.year < e.year ∨ (d.year = e.year ∧
      (d.month < e.month ∨ (d.month = e.month ∧ d.day < e.day)))) :
    dayNumber d < dayNumber e := by
  obtain ⟨hy1, hy2, hm1, hm2, hd1, hd2, _, _, _⟩ := hd
  obtain ⟨hy1e, hy2e, hm1e, hm2e, hd1e, hd2e, _, _, _⟩ := he
  unfold dayNumber daysBeforeMonth
  unfold daysInMonth at hd2 hd2e
  rcases h with h | ⟨hy, h⟩
  · have hoff : cumDays (isLeapYear d.year) d.month + (d.day - 1) <
        daysInYear d.year := by
      rw [daysInYear_eq]
      exact cum_bound (isLeapYear d.year) d.month (by omega) d.day
        (by have := monthLen_le (isLeapYear d.year) d.month; omega) hm1 hd1 hd2
    have hstep : daysUpto (d.year - 1) + daysInYear d.year = daysUpto d.year := by
      have hy : d.year - 1 + 1 = d.year := by omega
      have := daysUpto_succ (d.year - 1)
      rw [hy] at this; omega
    have hmono : daysUpto d.year ≤ daysUpto (e.year - 1) :=
      daysUpto_mono (by omega)
    omega
  · rw [hy]
    rcases h with h | ⟨hm, h⟩
    · have hgap : cumDays (isLeapYear e.year) d.month + monthLen (isLeapYear e.year) d.month ≤
          cumDays (isLeapYear e.year) e.month :=
        cum_gap (isLeapYear e.year) d.month (by omega) e.month (by omega) hm1 h
      rw [hy] at hd2
      omega
    · rw [hm]; omega

theorem secs_lt_of_lexLt {d e : DT} (hd : validDT d) (he : validDT e)
    (h : lexLt d e) : secs d < secs e := by
  have hdc := hd
  have hec := he
  obtain ⟨_, _, _, _, _, _, hh2, hi2, hs2⟩ := hdc
  obtain ⟨_, _, _, _, _, _, hh2e, hi2e, hs2e⟩ := hec
  unfold secs
  rcases h with h | ⟨hy, h | ⟨hm, h | ⟨hdy, htime⟩⟩⟩
  · have := dayNumber_lt hd he (Or.inl h); omega
  · have := dayNumber_lt hd he (Or.inr ⟨hy, Or.inl h⟩); omega
  · have := dayNumber_lt hd he (Or.inr ⟨hy, Or.inr ⟨hm, h⟩⟩); omega
  · have hday : dayNumber d = dayNumber e := by
      unfold dayNumber daysBeforeMonth; rw [hy, hm, hdy]
    rw [hday]
    rcases htime with h | ⟨hh, h | ⟨hmi, h⟩⟩ <;> omega

theorem dtKey_lt_of_lexLt {d e : DT} (hd : validDT d) (he : validDT e)
    (h : lexLt d e) : dtKey d < dtKey e := by
  obtain ⟨hy1, hy2, hm1, hm2, hd1, hd2, hh2, hi2, hs2⟩ := hd
  obtain ⟨hy1e, hy2e, hm1e, hm2e, hd1e, hd2e, hh2e, hi2e, hs2e⟩ := he
  have hdle := monthLen_le (isLeapYear d.year) d.month
  have hdlee := monthLen_le (isLeapYear e.year) e.month
  unfold daysInMonth at hd2 hd2e
  unfold lexLt at h
  unfold dtKey
  omega

theorem dtKey_inj {d e : DT} (hd : validDT d) (he : validDT e)
    (h : dtKey d = dtKey e) : d = e := by
  obtain ⟨y, mo, dd, hh, mi, ss⟩ := d
  obtain ⟨y2, mo2, dd2, hh3, mi2, ss2⟩ := e
  obtain ⟨hy1, hy2, hm1, hm2, hd1, hd2, hh2, hi2, hs2⟩ := hd
  obtain ⟨hy1e, hy2e, hm1e, hm2e, hd1e, hd2e, hh2e, hi2e, hs2e⟩ := he
  have hdle := monthLen_le (isLeapYear y) mo
  have hdlee := monthLen_le (isLeapYear y2) mo2
  unfold daysInMonth at hd2 hd2e
  unfold dtKey at h
  dsimp only at h hd2 hd2e hh2 hi2 hs2 hh2e hi2e hs2e hm1 hm2 hm1e hm2e hd1 hd1e
  simp only [DT.mk.injEq]
  omega

theorem dtKey_lt_iff_secs_lt {d e : DT} (hd : validDT d) (he : validDT e) :
    dtKey d < dtKey e ↔ secs d < secs e := by
  constructor
  · intro h
    rcases lexLt_trichotomy d e with hl | hl | hl
    · exact secs_lt_of_lexLt hd he hl
    · subst hl; omega
    · exact absurd (dtKey_lt_of_lexLt he hd hl) (by omega)
  · intro h
    rcases lexLt_trichotomy d e with hl | hl | hl
    · exact dtKey_lt_of_lexLt hd he hl
    · subst hl; omega
    · exact absurd (secs_lt_of_lexLt he hd hl) (by omega)

theorem dtKey_le_iff_secs_le {d e : DT} (hd : validDT d) (he : validDT e) :
    dtKey d ≤ dtKey e ↔ secs d ≤ secs e := by
  have h1 := dtKey_lt_iff_secs_lt he hd
  omega

/-- Calendar successor of a timestamp: one second later. -/
def succDT (d : DT) : DT :=
  if d.second < 59 then { d with second := d.second + 1 }
  else if d.minute < 59 then { d with minute := d.minute + 1, second := 0 }
  else if d.hour < 23 then { d with hour := d.hour + 1, minute := 0, second := 0 }
  else if d.day < daysInMonth d.year d.month then
    { d with day := d.day + 1, hour := 0, minute := 0, second := 0 }
  else if d.month < 12 then
    ⟨d.year, d.month + 1, 1, 0, 0, 0⟩
  else ⟨d.year + 1, 1, 1, 0, 0, 0⟩

theorem secs_succDT {d : DT} (hd : validDT d) : secs (succDT d) = secs d + 1 := by
  obtain ⟨hy1, hy2, hm1, hm2, hd1, hd2, hh2, hi2, hs2⟩ := hd
  unfold succDT
  split_ifs with h1 h2 h3 h4 h5
  · unfold secs dayNumber daysBeforeMonth; dsimp only; omega
  · unfold secs dayNumber daysBeforeMonth; dsimp only; omega
  · unfold secs dayNumber daysBeforeMonth; dsimp only; omega
  · unfold secs dayNumber daysBeforeMonth; dsimp only; omega
  · unfold secs dayNumber daysBeforeMonth
    dsimp only
    have hstep : cumDays (isLeapYear d.year) (d.month + 1) =
        cumDays (isLeapYear d.year) d.month + monthLen (isLeapYear d.year) d.month :=
      cumDays_succ (isLeapYear d.year) hm1
    unfold daysInMonth at h4 hd2
    omega
  · unfold secs dayNumber daysBeforeMonth
    dsimp only
    have hm12 : d.month = 12 := by omega
    have hyr : cumDays (isLeapYear d.year) 12 + monthLen (isLeapYear d.year) 12 =
        daysInYear d.year := by rw [cum_year, daysInYear_eq]
    have hstep : daysUpto (d.year - 1) + daysInYear d.year = daysUpto d.year := by
      have hy : d.year - 1 + 1 = d.year := by omega
      have := daysUpto_succ (d.year - 1)
      rw [hy] at this; omega
    have hup : daysUpto (d.year + 1 - 1) = daysUpto d.year := by
      congr 1
    have hc1 : cumDays (isLeapYear (d.year + 1)) 1 = 0 := rfl
    unfold daysInMonth at h4 hd2
    rw [hm12] at h4 hd2 ⊢
    omega

/-! ## Rendering roundtrip and month keys -/

theorem digitChar_toNat : ∀ k < 10, (Nat.digitChar k).toNat = 48 + k := by decide

theorem isDigitC_digitChar : ∀ k < 10, isDigitC (Nat.digitChar k) = true := by decide

theorem digitVal_digitChar : ∀ k < 10, digitVal (Nat.digitChar k) = k := by decide

/-- Field bounds guaranteeing a two-digit rendering per field. -/
def dtBounded (d : DT) : Prop :=
  d.year < 10000 ∧ d.month < 100 ∧ d.day < 100 ∧ d.hour < 100 ∧
  d.minute < 100 ∧ d.second < 100

theorem validDT_bounded {d : DT} (h : validDT d) : dtBounded d := by
  obtain ⟨h1, h2, h3, h4, h5, h6, h7, h8, h9⟩ := h
  have := monthLen_le (isLeapYear d.year) d.month
  unfold daysInMonth at h6
  exact ⟨by omega, by omega, by omega, by omega, by omega, by omega⟩

theorem extractDT_render {d : DT} (hb : dtBounded d) :
    extractDT (renderChars d) = some d := by
  obtain ⟨y, mo, dd, hh, mi, ss⟩ := d
  obtain ⟨h1, h2, h3, h4, h5, h6⟩ := hb
  dsimp only at h1 h2 h3 h4 h5 h6
  have i1 := isDigitC_digitChar (y / 100 / 10) (by omega)
  have i2 := isDigitC_digitChar (y / 100 % 10) (by omega)
  have i3 := isDigitC_digitChar (y % 100 / 10) (by omega)
  have i4 := isDigitC_digitChar (y % 100 % 10) (by omega)
  have i5 := isDigitC_digitChar (mo / 10) (by omega)
  have i6 := isDigitC_digitChar (mo % 10) (by omega)
  have i7 := isDigitC_digitChar (dd / 10) (by omega)
  have i8 := isDigitC_digitChar (dd % 10) (by omega)
  have i9 := isDigitC_digitChar (hh / 10) (by omega)
  have i10 := isDigitC_digitChar (hh % 10) (by omega)
  have i11 := isDigitC_digitChar (mi / 10) (by omega)
  have i12 := isDigitC_digitChar (mi % 10) (by omega)
  have i13 := isDigitC_digitChar (ss / 10) (by omega)
  have i14 := isDigitC_digitChar (ss % 10) (by omega)
  have v1 := digitVal_digitChar (y / 100 / 10) (by omega)
  have v2 := digitVal_digitChar (y / 100 % 10) (by omega)
  have v3 := digitVal_digitChar (y % 100 / 10) (by omega)
  have v4 := digitVal_digitChar (y % 100 % 10) (by omega)
  have v5 := digitVal_digitChar (mo / 10) (by omega)
  have v6 := digitVal_digitChar (mo % 10) (by omega)
  have v7 := digitVal_digitChar (dd / 10) (by omega)
  have v8 := digitVal_digitChar (dd % 10) (by omega)
  have v9 := digitVal_digitChar (hh / 10) (by omega)
  have v10 := digitVal_digitChar (hh % 10) (by omega)
  have v11 := digitVal_digitChar (mi / 10) (by omega)
  have v12 := digitVal_digitChar (mi % 10) (by omega)
  have v13 := digitVal_digitChar (ss / 10) (by omega)
  have v14 := digitVal_digitChar (ss % 10) (by omega)
  simp only [renderChars, pad4, pad2, List.cons_append, List.nil_append]
  rw [extractDT]
  rw [if_pos (by simp [i1, i2, i3, i4, i5, i6, i7, i8, i9, i10, i11, i12, i13, i14])]
  simp only [Option.some.injEq, DT.mk.injEq]
  rw [v1, v2, v3, v4, v5, v6, v7, v8, v9, v10, v11, v12, v13, v14]
  refine ⟨by omega, by omega, by omega, by omega, by omega, by omega⟩

theorem parseTs_render {d : DT} (hv : validDT d) :
    parseTs (renderTs d).data = some d := by
  have hb : (renderTs d).data = renderChars d := rfl
  rw [hb]
  unfold parseTs
  rw [extractDT_render (validDT_bounded hv)]
  dsimp only
  rw [if_pos hv]

theorem parseTs_valid {l : List Char} {d : DT} (h : parseTs l = some d) :
    extractDT l = some d ∧ validDT d := by
  rcases hx : extractDT l with _ | d2
  · unfold parseTs at h; rw [hx] at h; exact Option.noConfusion h
  · unfold parseTs at h; rw [hx] at h
    dsimp only at h
    by_cases hv : validDT d2
    · rw [if_pos hv] at h
      have he := Option.some.inj h
      subst he
      exact ⟨rfl, hv⟩
    · rw [if_neg hv] at h
      exact Option.noConfusion h

theorem dtKey_le_dateParts {d e : DT} (hd : validDT d) (he : validDT e)
    (h : dtKey d ≤ dtKey e) :
    d.year < e.year ∨ (d.year = e.year ∧ (d.month < e.month ∨
      (d.month = e.month ∧ d.day ≤ e.day))) := by
  obtain ⟨hy1, hy2, hm1, hm2, hd1, hd2, hh2, hi2, hs2⟩ := hd
  obtain ⟨hy1e, hy2e, hm1e, hm2e, hd1e, hd2e, hh2e, hi2e, hs2e⟩ := he
  have hdle := monthLen_le (isLeapYear d.year) d.month
  have hdlee := monthLen_le (isLeapYear e.year) e.month
  unfold daysInMonth at hd2 hd2e
  unfold dtKey at h
  omega

/-- Month index: months since year 0, assuming a 1..12 month field. -/
def monthIdxP (y m : Nat) : Nat := y * 12 + (m - 1)

/-- Python date ordering restricted to the calendar-date triple. -/
def dateLtP (d e : DT) : Prop :=
  d.year < e.year ∨ (d.year = e.year ∧ (d.month < e.month ∨
    (d.month = e.month ∧ d.day < e.day)))

instance (d e : DT) : Decidable (dateLtP d e) := by unfold dateLtP; infer_instance

def nextMonth (y m : Nat) : Nat × Nat := if m = 12 then (y + 1, 1) else (y, m + 1)

/-- Fuel-indexed form of the month walk loop of month_keys_in_range; the fuel
is the exact number of iterations the Python while loop performs. -/
def monthWalk : Nat → Nat → Nat → List String
  | 0, _, _ => []
  | Nat.succ n, y, m => fmtMonth y m :: monthWalk n (nextMonth y m).1 (nextMonth y m).2

/-- Model of month_keys_in_range (dates compared as in Python date order). -/
def monthKeysInRange (sd ed : DT) : List String :=
  if dateLtP ed sd then []
  else monthWalk (monthIdxP ed.year ed.month + 1 - monthIdxP sd.year sd.month)
    sd.year sd.month

def fmtIdx (i : Nat) : String := fmtMonth (i / 12) (i % 12 + 1)

theorem fmtIdx_of {y m : Nat} (h1 : 1 ≤ m) (h2 : m ≤ 12) :
    fmtIdx (y * 12 + (m - 1)) = fmtMonth y m := by
  unfold fmtIdx
  congr 1
  · omega
  · omega

theorem monthWalk_eq : ∀ (n y m : Nat), 1 ≤ m → m ≤ 12 →
    monthWalk n y m = (List.range n).map (fun j => fmtIdx (y * 12 + (m - 1) + j)) := by
  intro n
  induction n with
  | zero => intro y m _ _; rfl
  | succ k ih =>
    intro y m h1 h2
    rw [monthWalk, List.range_succ_eq_map, List.map_cons, List.map_map]
    have hhead : fmtMonth y m = fmtIdx (y * 12 + (m - 1) + 0) := by
      rw [Nat.add_zero, fmtIdx_of h1 h2]
    rw [← hhead]
    congr 1
    by_cases hm : m = 12
    · subst hm
      have hnext : nextMonth y 12 = (y + 1, 1) := by unfold nextMonth; simp
      rw [hnext]
      rw [ih (y + 1) 1 (by omega) (by omega)]
      apply List.map_congr_left
      intro j _
      simp only [Function.comp]
      congr 1
      omega
    · have hnext : nextMonth y m = (y, m + 1) := by unfold nextMonth; simp [hm]
      rw [hnext]
      rw [ih y (m + 1) (by omega) (by omega)]
      apply List.map_congr_left
      intro j _
      simp only [Function.comp]
      congr 1
      omega

theorem fmtMonth_inj {y m y2 m2 : Nat} (hy : y < 10000) (hy2 : y2 < 10000)
    (hm : m < 100) (hm2 : m2 < 100) (h : fmtMonth y m = fmtMonth y2 m2) :
    y = y2 ∧ m = m2 := by
  simp only [fmtMonth, String.ext_iff, pad4, pad2, List.cons_append, List.nil_append,
    List.cons.injEq, and_true] at h
  obtain ⟨e1, e2, e3, e4, _, e5, e6⟩ := h
  have t1 := congrArg Char.toNat e1
  have t2 := congrArg Char.toNat e2
  have t3 := congrArg Char.toNat e3
  have t4 := congrArg Char.toNat e4
  have t5 := congrArg Char.toNat e5
  have t6 := congrArg Char.toNat e6
  rw [digitChar_toNat _ (by omega), digitChar_toNat _ (by omega)] at t1 t2 t3 t4 t5 t6
  omega

theorem fmtIdx_inj {i i2 : Nat} (h1 : i < 120000) (h2 : i2 < 120000)
    (h : fmtIdx i = fmtIdx i2) : i = i2 := by
  unfold fmtIdx at h
  have := fmtMonth_inj (by omega) (by omega) (by omega) (by omega) h
  omega

theorem mem_monthWalk {n y m y2 m2 : Nat} (h1 : 1 ≤ m) (h2 : m ≤ 12)
    (h3 : 1 ≤ m2) (h4 : m2 ≤ 12)
    (hlo : monthIdxP y m ≤ monthIdxP y2 m2)
    (hhi : monthIdxP y2 m2 < monthIdxP y m + n) :
    fmtMonth y2 m2 ∈ monthWalk n y m := by
  rw [monthWalk_eq n y m h1 h2]
  rw [List.mem_map]
  refine ⟨monthIdxP y2 m2 - monthIdxP y m, ?_, ?_⟩
  · rw [List.mem_range]
    unfold monthIdxP at hlo hhi ⊢
    omega
  · have harg : y * 12 + (m - 1) + (monthIdxP y2 m2 - monthIdxP y m) =
        y2 * 12 + (m2 - 1) := by
      unfold monthIdxP at hlo hhi ⊢
      omega
    rw [harg, fmtIdx_of h3 h4]

theorem nodup_monthWalk {n y m : Nat} (h1 : 1 ≤ m) (h2 : m ≤ 12)
    (hbound : y * 12 + (m - 1) + n ≤ 120000) :
    (monthWalk n y m).Nodup := by
  rw [monthWalk_eq n y m h1 h2]
  refine List.Nodup.map_on ?_ (List.nodup_range n)
  intro a ha b hb hf
  rw [List.mem_range] at ha hb
  have := fmtIdx_inj (i := y * 12 + (m - 1) + a) (by omega) (by omega) hf
  omega

theorem mem_monthKeys {sd ed t : DT} (hs : validDT sd) (he : validDT ed)
    (ht : validDT t) (h1 : dtKey sd ≤ dtKey t) (h2 : dtKey t ≤ dtKey ed) :
    monthKeyStr t ∈ monthKeysInRange sd ed := by
  have p1 := dtKey_le_dateParts hs ht h1
  have p2 := dtKey_le_dateParts ht he h2
  obtain ⟨_, _, hm1s, hm2s, _, _, _, _, _⟩ := hs
  obtain ⟨_, _, hm1e, hm2e, _, _, _, _, _⟩ := he
  obtain ⟨_, _, hm1t, hm2t, _, _, _, _, _⟩ := ht
  unfold monthKeysInRange
  rw [if_neg (by unfold dateLtP; omega)]
  unfold monthKeyStr
  exact mem_monthWalk hm1s hm2s hm1t hm2t
    (by unfold monthIdxP; omega)
    (by unfold monthIdxP; omega)

theorem nodup_monthKeys {sd ed : DT} (hs : validDT sd) (he : validDT ed) :
    (monthKeysInRange sd ed).Nodup := by
  unfold monthKeysInRange
  split_ifs with h
  · exact List.nodup_nil
  · obtain ⟨hy1, hy2, hm1, hm2, _, _, _, _, _⟩ := hs
    obtain ⟨hy1e, hy2e, hm1e, hm2e, _, _, _, _, _⟩ := he
    refine nodup_monthWalk hm1 hm2 ?_
    unfold dateLtP at h
    unfold monthIdxP
    omega

/-! ## Log-line parser (parse_action_log_line and helpers) -/

/-- Python str.strip whitespace set (ASCII). -/
def isSpaceC (c : Char) : Bool :=
  c.toNat = 32 || c.toNat = 9 || c.toNat = 10 || c.toNat = 13 ||
  c.toNat = 11 || c.toNat = 12

def stripChars (l : List Char) : List Char :=
  ((l.dropWhile isSpaceC).reverse.dropWhile isSpaceC).reverse

/-- Split at the first occurrence of sep (str.split with maxsplit 1); none
when sep does not occur. -/
def splitFirst (sep : List Char) : List Char → Option (List Char × List Char)
  | [] => none
  | c :: cs =>
    if sep.isPrefixOf (c :: cs) then some ([], (c :: cs).drop sep.length)
    else
      match splitFirst sep cs with
      | some (l, r) => some (c :: l, r)
      | none => none

/-- Split at the last occurrence of sep (str.rsplit with maxsplit 1); none
when sep does not occur. -/
def splitLast (sep : List Char) : List Char → Option (List Char × List Char)
  | [] => none
  | c :: cs =>
    match splitLast sep cs with
    | some (l, r) => some (c :: l, r)
    | none =>
      if sep.isPrefixOf (c :: cs) then some ([], (c :: cs).drop sep.length) else none

/-- Python substring containment. -/
def containsSub (sep l : List Char) : Bool := (splitFirst sep l).isSome

def isUpperAZ (c : Char) : Bool := 65 ≤ c.toNat && c.toNat ≤ 90

/-- Model of the anchored action-line regex
ts dash field dash LEVEL dash message with a 19-character digit-shaped
timestamp. Backtracking analysis fixes the shape: the dash-free class forces
the first separator to sit at the first dash after the timestamp (preceded by
a space), the uppercase class cannot absorb the following space, and the dot
class excludes newlines from the message. Returns (timestamp chars, message
chars) on a match. -/
def matchActionLine (l : List Char) : Option (List Char × List Char) :=
  match extractDT (l.take 19) with
  | none => none
  | some _ =>
    match l.drop 19 with
    | ' ' :: '-' :: ' ' :: r =>
      let p := r.takeWhile (fun c => c ≠ '-')
      match r.drop p.length with
      | '-' :: ' ' :: r2 =>
        if 2 ≤ p.length ∧ p.getLast? = some ' ' then
          let sev := r2.takeWhile isUpperAZ
          match r2.drop sev.length with
          | ' ' :: '-' :: ' ' :: msg =>
            if sev ≠ [] ∧ msg.all (fun c => c ≠ '\n') then
              some (l.take 19, msg)
            else none
          | _ => none
        else none
      | _ => none
    | _ => none

def badgeMark : List Char := " - Badge: ".data

def statusMark : List Char := " - Status: ".data

structure MsgParts where
  event_type : List Char
  badge_id : Option (List Char)
  status : List Char
deriving DecidableEq

/-- Model of parse_action_message. The error value models the unguarded
two-value unpacking of rsplit: when both markers occur in the message but the
status marker occurs only before the badge marker, rsplit on the text after
the badge marker returns a single part and the unpacking raises ValueError. -/
def parseActionMessage (message : List Char) : Except Unit (Option MsgParts) :=
  if containsSub badgeMark message ∧ containsSub statusMark message then
    match splitFirst badgeMark message with
    | some (left, right) =>
      match splitLast statusMark right with
      | some (badgePart, statusPart) =>
        let et := stripChars left
        let bid := stripChars badgePart
        let st := stripChars statusPart
        if et = [] then .ok none
        else
          .ok (some ⟨et, if bid = [] then none else some bid,
            if st = [] then "Unknown".data else st⟩)
      | none => .error ()
    | none => .error ()
  else if containsSub statusMark message then
    match splitLast statusMark message with
    | some (left, statusPart) =>
      let et := stripChars left
      let st := stripChars statusPart
      if et = [] then .ok none
      else .ok (some ⟨et, none, if st = [] then "Unknown".data else st⟩)
    | none => .error ()
  else .ok none

/-- Normalized event record (one row of the events table; the id column is
the implicit list position). -/
structure Event where
  ts : String
  event_type : String
  badge_id : Option String
  status : String
  raw_message : String
deriving DecidableEq, Repr

/-- Model of parse_action_log_line: inner exceptions propagate. -/
def parseActionLogLine (line : List Char) : Except Unit (Option Event) :=
  let raw := stripChars line
  if raw = [] then .ok none
  else
    match matchActionLine raw with
    | none => .ok none
    | some (tsChars, msg) =>
      match parseActionMessage msg with
      | .error e => .error e
      | .ok none => .ok none
      | .ok (some p) =>
        .ok (some ⟨⟨tsChars⟩, ⟨p.event_type⟩, p.badge_id.map (fun b => (⟨b⟩ : String)),
          ⟨p.status⟩, ⟨raw⟩⟩)

/-! ## Sharded store, ingestion and range query -/

/-- Monthly shard store: association list keyed by month key (the model of
the per-month database files; a missing key is a missing file). -/
abbrev Store := List (String × List Event)

def storeGet : Store → String → List Event
  | [], _ => []
  | (k2, es) :: rest, k => if k2 = k then es else storeGet rest k

def storeInsert : Store → String → Event → Store
  | [], k, e => [(k, [e])]
  | (k2, es) :: rest, k, e =>
    if k2 = k then (k2, es ++ [e]) :: rest else (k2, es) :: storeInsert rest k e

theorem storeGet_insert (st : Store) (k k2 : String) (e : Event) :
    storeGet (storeInsert st k e) k2 =
      storeGet st k2 ++ (if k = k2 then [e] else []) := by
  induction st with
  | nil =>
    simp only [storeInsert, storeGet]
    by_cases h : k = k2 <;> simp [h]
  | cons p rest ih =>
    obtain ⟨k3, es⟩ := p
    by_cases h3 : k3 = k
    · subst h3
      simp only [storeInsert, if_pos rfl, storeGet]
      by_cases h : k3 = k2 <;> simp [h]
    · simp only [storeInsert, if_neg h3, storeGet]
      by_cases h : k3 = k2
      · subst h
        have hk : ¬ k = k3 := fun hc => h3 hc.symm
        simp [hk]
      · simp [h, ih]

theorem storeGet_mem {st : Store} {k : String} {e : Event}
    (h : e ∈ storeGet st k) : ∃ es, (k, es) ∈ st ∧ e ∈ es := by
  induction st with
  | nil => simp [storeGet] at h
  | cons p rest ih =>
    obtain ⟨k2, es⟩ := p
    simp only [storeGet] at h
    by_cases hk : k2 = k
    · subst hk
      rw [if_pos rfl] at h
      exact ⟨es, List.mem_cons_self _ _, h⟩
    · rw [if_neg hk] at h
      obtain ⟨es2, hmem, he⟩ := ih h
      exact ⟨es2, List.mem_cons_of_mem _ hmem, he⟩

/-- One step of the ingestion loop state (store, inserted count). -/
def ingestAux : List (List Char) → Store × Nat → Except Unit (Store × Nat)
  | [], acc => .ok acc
  | line :: rest, (st, n) =>
    match parseActionLogLine line with
    | .error e => .error e
    | .ok none => ingestAux rest (st, n)
    | .ok (some ev) =>
      match parseTs ev.ts.data with
      | none => .error ()
      | some d => ingestAux rest (storeInsert st (monthKeyStr d) ev, n + 1)

/-- Model of ingest_action_log_file on the list of lines of the file.
Commits happen only after the loop, so on an exception no work is persisted
and the remaining lines are never processed. -/
def ingestLines (lines : List (List Char)) : Except Unit (Store × Nat) :=
  ingestAux lines ([], 0)

/-- Lines the parser accepts, in file order. -/
def parsedEvents (lines : List (List Char)) : List Event :=
  lines.filterMap (fun l =>
    match parseActionLogLine l with
    | .ok (some e) => some e
    | _ => none)

def typeOk (types : Option (List String)) (e : Event) : Bool :=
  match types with
  | none => true
  | some l => if l = [] then true else l.contains e.event_type

/-- Row filter of the fan-out query: the TEXT-comparison WHERE clause. -/
def inRangeB (startTs endTs : String) (types : Option (List String)) (e : Event) : Bool :=
  tsLeB startTs e.ts && tsLeB e.ts endTs && typeOk types e

def EvLe (e f : Event) : Prop := tsLeB e.ts f.ts = true

instance : DecidableRel EvLe := fun e f => by unfold EvLe; infer_instance

instance : IsTotal Event EvLe := ⟨fun e f => tsLeB_total e.ts f.ts⟩

instance : IsTrans Event EvLe := ⟨fun _ _ _ => tsLeB_trans⟩

/-- ORDER BY ts ASC over the merged rows. -/
def sortByTs (l : List Event) : List Event := List.insertionSort EvLe l

/-- Model of query_events_range: strptime both endpoints (error models the
ValueError on an invalid bound), resolve covering month shards, union the
filtered per-shard scans, order by timestamp. -/
def queryEventsRange (st : Store) (startTs endTs : String)
    (types : Option (List String)) : Except Unit (List Event) :=
  match parseTs startTs.data, parseTs endTs.data with
  | some sd, some ed =>
    .ok (sortByTs ((monthKeysInRange sd ed).flatMap
      (fun k => (storeGet st k).filter (inRangeB startTs endTs types))))
  | _, _ => .error ()

/-! ## Ingestion structure and fan-out counting lemmas -/

/-- Month key of an event as ingestion computes it. -/
def eventKey (e : Event) : Option String := (parseTs e.ts.data).map monthKeyStr

theorem ingestAux_ok :
    ∀ (lines : List (List Char)) (st0 : Store) (n0 : Nat) (st : Store) (n : Nat),
      ingestAux lines (st0, n0) = .ok (st, n) →
      (∀ k, storeGet st k = storeGet st0 k ++
        (parsedEvents lines).filter (fun e => eventKey e = some k)) ∧
      n = n0 + (parsedEvents lines).length ∧
      (∀ e ∈ parsedEvents lines, ∃ d, parseTs e.ts.data = some d ∧ validDT d) := by
  intro lines
  induction lines with
  | nil =>
    intro st0 n0 st n h
    simp only [ingestAux] at h
    obtain ⟨ha, hb⟩ := Prod.mk.inj (Except.ok.inj h)
    subst ha; subst hb
    simp [parsedEvents]
  | cons line rest ih =>
    intro st0 n0 st n h
    simp only [ingestAux] at h
    rcases hp : parseActionLogLine line with e | o
    · rw [hp] at h; exact Except.noConfusion h
    · rw [hp] at h
      rcases o with _ | ev
      · dsimp only at h
        obtain ⟨hst, hn, hv⟩ := ih st0 n0 st n h
        refine ⟨?_, ?_, ?_⟩
        · intro k
          rw [hst k]
          simp [parsedEvents, List.filterMap_cons, hp]
        · rw [hn]; simp [parsedEvents, List.filterMap_cons, hp]
        · intro e he
          simp only [parsedEvents, List.filterMap_cons, hp] at he
          exact hv e he
      · dsimp only at h
        rcases hts : parseTs ev.ts.data with _ | d
        · rw [hts] at h; exact Except.noConfusion h
        · rw [hts] at h
          obtain ⟨hst, hn, hv⟩ := ih _ _ st n h
          refine ⟨?_, ?_, ?_⟩
          · intro k
            rw [hst k, storeGet_insert]
            have hkey : eventKey ev = some (monthKeyStr d) := by
              simp [eventKey, hts]
            simp only [parsedEvents, List.filterMap_cons, hp]
            rw [List.filter_cons]
            by_cases hk : monthKeyStr d = k
            · rw [if_pos hk,
                if_pos (show decide (eventKey ev = some k) = true by simp [hkey, hk])]
              simp [parsedEvents, List.append_assoc]
            · rw [if_neg hk,
                if_neg (show ¬ decide (eventKey ev = some k) = true by simp [hkey, hk])]
              simp [parsedEvents]
          · rw [hn]
            simp only [parsedEvents, List.filterMap_cons, hp, List.length_cons]
            omega
          · intro e he
            simp only [parsedEvents, List.filterMap_cons, hp, List.mem_cons] at he
            rcases he with he | he
            · subst he
              exact ⟨d, hts, (parseTs_valid hts).2⟩
            · exact hv e he

theorem flatMap_congr_mem {α β : Type} {l : List α} {f g : α → List β}
    (h : ∀ a ∈ l, f a = g a) : l.flatMap f = l.flatMap g := by
  induction l with
  | nil => rfl
  | cons a as ih =>
    simp only [List.flatMap_cons]
    rw [h a (List.mem_cons_self a as), ih (fun x hx => h x (List.mem_cons_of_mem a hx))]

theorem count_flatMap (keys : List String) (F : String → List Event) (x : Event) :
    (keys.flatMap F).count x = (keys.map (fun k => (F k).count x)).sum := by
  induction keys with
  | nil => rfl
  | cons k ks ih =>
    simp only [List.flatMap_cons, List.map_cons, List.sum_cons, List.count_append, ih]

theorem count_filter_ite (p : Event → Bool) (xs : List Event) (x : Event) :
    (xs.filter p).count x = if p x then xs.count x else 0 := by
  induction xs with
  | nil => simp
  | cons y ys ih =>
    by_cases hxy : x = y
    · subst hxy
      by_cases hy : p x = true
      · simp [List.filter_cons, hy, List.count_cons_self, ih]
      · simp [List.filter_cons, hy, ih]
    · by_cases hy : p y = true
      · simp only [List.filter_cons, hy, if_true]
        rw [List.count_cons_of_ne hxy, List.count_cons_of_ne hxy, ih]
      · simp only [List.filter_cons, hy, Bool.false_eq_true, if_false, ih,
          List.count_cons_of_ne hxy]

theorem sum_single {keys : List String} {f : String → Nat} {k0 : String}
    (hnd : keys.Nodup) (hf : ∀ k, f k ≠ 0 → k = k0) :
    (keys.map f).sum = if k0 ∈ keys then f k0 else 0 := by
  induction keys with
  | nil => simp
  | cons k ks ih =>
    obtain ⟨hk, hnd2⟩ := List.nodup_cons.mp hnd
    simp only [List.map_cons, List.sum_cons, ih hnd2, List.mem_cons]
    by_cases hzero : f k = 0
    · by_cases hmem : k0 ∈ ks
      · simp [hmem, hzero]
      · by_cases hk0 : k0 = k
        · subst hk0
          simp [hmem, hzero]
        · simp [hmem, hk0, hzero]
    · have hkk0 : k = k0 := hf k hzero
      subst hkk0
      simp [hk]

theorem flatMap_filter_perm {keys : List String} {xs : List Event}
    (hnd : keys.Nodup)
    (hcov : ∀ e ∈ xs, ∃ k, k ∈ keys ∧ eventKey e = some k) :
    List.Perm (keys.flatMap (fun k => xs.filter (fun e => eventKey e = some k))) xs := by
  rw [List.perm_iff_count]
  intro x
  rw [count_flatMap]
  by_cases hx : x ∈ xs
  · obtain ⟨kx, hkx, hkey⟩ := hcov x hx
    have hsum : ((keys.map (fun k => (xs.filter (fun e => eventKey e = some k)).count x)).sum)
        = if kx ∈ keys then (xs.filter (fun e => eventKey e = some kx)).count x else 0 := by
      refine sum_single hnd ?_
      intro k hne
      rw [count_filter_ite] at hne
      by_cases hdec : eventKey x = some k
      · rw [hkey] at hdec
        exact (Option.some.inj hdec).symm
      · rw [if_neg (by simp [hdec])] at hne
        omega
    rw [hsum, if_pos hkx, count_filter_ite, if_pos (by simp [hkey])]
  · have hc0 : xs.count x = 0 := List.count_eq_zero.mpr hx
    rw [hc0]
    have hall : ∀ k ∈ keys, (xs.filter (fun e => eventKey e = some k)).count x = 0 := by
      intro k _
      rw [count_filter_ite]
      split_ifs <;> omega
    have : (keys.map (fun k => (xs.filter (fun e => eventKey e = some k)).count x)).sum
        = (keys.map (fun _ => 0)).sum := by
      apply congrArg
      exact List.map_congr_left hall
    rw [this]
    simp

theorem tsLe_key {s t : String} {d e : DT} (hs : parseTs s.data = some d)
    (ht : parseTs t.data = some e) (h : tsLeB s t = true) : dtKey d ≤ dtKey e := by
  have hcs := charsCmp_extract (parseTs_valid hs).1 (parseTs_valid ht).1
  simp only [tsLeB, decide_eq_true_eq] at h
  rw [hcs] at h
  by_contra hlt
  exact h (cmpN_gt_iff.mpr (by omega))

theorem key_le_tsLe {s t : String} {d e : DT} (hs : parseTs s.data = some d)
    (ht : parseTs t.data = some e) (h : dtKey d ≤ dtKey e) : tsLeB s t = true := by
  have hcs := charsCmp_extract (parseTs_valid hs).1 (parseTs_valid ht).1
  simp only [tsLeB, decide_eq_true_eq]
  rw [hcs]
  intro hgt
  rw [cmpN_gt_iff] at hgt
  omega

/-- C2, main part: ingesting a file and querying a covering range returns
exactly the multiset of successfully parsed lines, sorted by timestamp,
whatever their order in the file. -/
theorem C2_roundtrip_query (lines : List (List Char)) (st : Store) (n : Nat)
    (a b : String) (da db : DT)
    (hing : ingestLines lines = .ok (st, n))
    (ha : parseTs a.data = some da) (hb : parseTs b.data = some db)
    (hcov : ∀ e ∈ parsedEvents lines, tsLeB a e.ts = true ∧ tsLeB e.ts b = true) :
    ∃ out, queryEventsRange st a b none = .ok out ∧
      List.Perm out (parsedEvents lines) ∧ out.Sorted EvLe ∧
      n = (parsedEvents lines).length := by
  obtain ⟨hst, hn, hv⟩ := ingestAux_ok lines [] 0 st n hing
  have hda := (parseTs_valid ha).2
  have hdb := (parseTs_valid hb).2
  have hfilter : ∀ k, (storeGet st k).filter (inRangeB a b none) =
      (parsedEvents lines).filter (fun e => eventKey e = some k) := by
    intro k
    have hget : storeGet st k =
        (parsedEvents lines).filter (fun e => eventKey e = some k) := by
      rw [hst k]; rfl
    rw [hget]
    apply List.filter_eq_self.mpr
    intro e he
    have hmem : e ∈ parsedEvents lines := (List.mem_filter.mp he).1
    obtain ⟨h1, h2⟩ := hcov e hmem
    simp [inRangeB, typeOk, h1, h2]
  have hq : queryEventsRange st a b none =
      .ok (sortByTs ((monthKeysInRange da db).flatMap
        (fun k => (storeGet st k).filter (inRangeB a b none)))) := by
    unfold queryEventsRange
    rw [ha, hb]
  refine ⟨_, hq, ?_, List.sorted_insertionSort EvLe _, by rw [hn]; omega⟩
  simp only [sortByTs]
  refine List.Perm.trans (List.perm_insertionSort EvLe _) ?_
  rw [flatMap_congr_mem (fun k _ => hfilter k)]
  refine flatMap_filter_perm (nodup_monthKeys hda hdb) ?_
  intro e he
  obtain ⟨d, hts, hvd⟩ := hv e he
  refine ⟨monthKeyStr d, ?_, by simp [eventKey, hts]⟩
  obtain ⟨h1, h2⟩ := hcov e he
  exact mem_monthKeys hda hdb hvd (tsLe_key ha hts h1) (tsLe_key hts hb h2)

/-! ## Fan-out/merge consistency -/

/-- Shard invariant: every stored row sits in the shard of its own month and
carries a strptime-parseable timestamp (established by ingestion). -/
def StoreWF (st : Store) : Prop :=
  ∀ p ∈ st, ∀ e ∈ p.2, ∃ d, parseTs e.ts.data = some d ∧ monthKeyStr d = p.1

instance (st : Store) : Decidable (StoreWF st) := by
  unfold StoreWF; infer_instance

theorem count_query {st : Store} (hwf : StoreWF st) {a b : String} {da db : DT}
    (ha : parseTs a.data = some da) (hb : parseTs b.data = some db)
    (types : Option (List String)) (x : Event) {dx : DT}
    (hx : parseTs x.ts.data = some dx) :
    ((monthKeysInRange da db).flatMap
      (fun k => (storeGet st k).filter (inRangeB a b types))).count x =
    if inRangeB a b types x = true then (storeGet st (monthKeyStr dx)).count x
    else 0 := by
  rw [count_flatMap]
  have hmap : (monthKeysInRange da db).map
      (fun k => ((storeGet st k).filter (inRangeB a b types)).count x) =
      (monthKeysInRange da db).map
      (fun k => if inRangeB a b types x = true then (storeGet st k).count x else 0) := by
    apply List.map_congr_left
    intro k _
    exact count_filter_ite _ _ _
  rw [hmap]
  by_cases hin : inRangeB a b types x = true
  · simp only [hin, if_true]
    have hf : ∀ k, (storeGet st k).count x ≠ 0 → k = monthKeyStr dx := by
      intro k hne
      have hxmem : x ∈ storeGet st k := by
        by_contra hxm
        exact hne (List.count_eq_zero.mpr hxm)
      obtain ⟨es, hp, hxe⟩ := storeGet_mem hxmem
      obtain ⟨d, hpd, hkd⟩ := hwf _ hp _ hxe
      rw [hx] at hpd
      dsimp only at hkd
      rw [← hkd, Option.some.inj hpd]
    rw [sum_single (nodup_monthKeys (parseTs_valid ha).2 (parseTs_valid hb).2) hf]
    have hcond : tsLeB a x.ts = true ∧ tsLeB x.ts b = true := by
      simp only [inRangeB, Bool.and_eq_true] at hin
      exact ⟨hin.1.1, hin.1.2⟩
    have hmem : monthKeyStr dx ∈ monthKeysInRange da db :=
      mem_monthKeys (parseTs_valid ha).2 (parseTs_valid hb).2 (parseTs_valid hx).2
        (tsLe_key ha hx hcond.1) (tsLe_key hx hb hcond.2)
    rw [if_pos hmem]
  · simp [hin]

theorem count_query_noparse {st : Store} (hwf : StoreWF st) (keys : List String)
    (p : Event → Bool) (x : Event) (hx : parseTs x.ts.data = none) :
    (keys.flatMap (fun k => (storeGet st k).filter p)).count x = 0 := by
  rw [count_flatMap]
  have hmap : keys.map (fun k => ((storeGet st k).filter p).count x) =
      keys.map (fun _ => 0) := by
    apply List.map_congr_left
    intro k _
    rw [count_filter_ite]
    have hz : (storeGet st k).count x = 0 := by
      rw [List.count_eq_zero]
      intro hxmem
      obtain ⟨es, hp2, hxe⟩ := storeGet_mem hxmem
      obtain ⟨d, hpd, _⟩ := hwf _ hp2 _ hxe
      rw [hx] at hpd
      exact Option.noConfusion hpd
    rw [hz]
    split_ifs <;> rfl
  rw [hmap]
  simp

theorem tsLe_false_key {s t : String} {d e : DT} (hs : parseTs s.data = some d)
    (ht : parseTs t.data = some e) (h : tsLeB s t = false) : dtKey e < dtKey d := by
  have hcs := charsCmp_extract (parseTs_valid hs).1 (parseTs_valid ht).1
  have hgt : charsCmp s.data t.data = .gt := by
    have h2 := decide_eq_false_iff_not.mp h
    by_contra hne
    exact h2 hne
  rw [hcs] at hgt
  exact cmpN_gt_iff.mp hgt

/-- C3: splitting a range at any interior second partitions the fan-out query
result, and the year-boundary example resolves exactly the two shard keys
2025-12 and 2026-01. -/
theorem C3_fanout_merge (st : Store) (hwf : StoreWF st) (a b : String) (m : DT)
    (da db : DT) (ha : parseTs a.data = some da) (hb : parseTs b.data = some db)
    (hm : validDT m) (hsm : validDT (succDT m))
    (h1 : tsLeB a (renderTs m) = true) (h2 : tsLeB (renderTs (succDT m)) b = true)
    (types : Option (List String)) :
    ∃ o o1 o2,
      queryEventsRange st a b types = .ok o ∧
      queryEventsRange st a (renderTs m) types = .ok o1 ∧
      queryEventsRange st (renderTs (succDT m)) b types = .ok o2 ∧
      List.Perm o (o1 ++ o2) ∧
      monthKeysInRange ⟨2025, 12, 20, 0, 0, 0⟩ ⟨2026, 1, 5, 0, 0, 0⟩ =
        ["2025-12", "2026-01"] := by
  have hmr : parseTs (renderTs m).data = some m := parseTs_render hm
  have hsmr : parseTs (renderTs (succDT m)).data = some (succDT m) := parseTs_render hsm
  have hdxm := hm
  have hq : queryEventsRange st a b types = .ok (sortByTs ((monthKeysInRange da db).flatMap
      (fun k => (storeGet st k).filter (inRangeB a b types)))) := by
    unfold queryEventsRange; rw [ha, hb]
  have hq1 : queryEventsRange st a (renderTs m) types =
      .ok (sortByTs ((monthKeysInRange da m).flatMap
      (fun k => (storeGet st k).filter (inRangeB a (renderTs m) types)))) := by
    unfold queryEventsRange; rw [ha, hmr]
  have hq2 : queryEventsRange st (renderTs (succDT m)) b types =
      .ok (sortByTs ((monthKeysInRange (succDT m) db).flatMap
      (fun k => (storeGet st k).filter (inRangeB (renderTs (succDT m)) b types)))) := by
    unfold queryEventsRange; rw [hsmr, hb]
  refine ⟨_, _, _, hq, hq1, hq2, ?_, by decide⟩
  rw [List.perm_iff_count]
  intro x
  rw [List.count_append]
  simp only [sortByTs]
  rw [(List.perm_insertionSort EvLe _).count_eq, (List.perm_insertionSort EvLe _).count_eq,
    (List.perm_insertionSort EvLe _).count_eq]
  have hkm : dtKey m < dtKey (succDT m) := by
    rw [dtKey_lt_iff_secs_lt hm hsm, secs_succDT hm]; omega
  rcases hxts : parseTs x.ts.data with _ | dx
  · rw [count_query_noparse hwf _ _ _ hxts, count_query_noparse hwf _ _ _ hxts,
      count_query_noparse hwf _ _ _ hxts]
  · rw [count_query hwf ha hb types x hxts, count_query hwf ha hmr types x hxts,
      count_query hwf hsmr hb types x hxts]
    have hdx := (parseTs_valid hxts).2
    by_cases hty : typeOk types x = true
    · by_cases hM : tsLeB x.ts (renderTs m) = true
      · have hB : tsLeB x.ts b = true := by
          refine key_le_tsLe hxts hb ?_
          have k1 : dtKey dx ≤ dtKey m := tsLe_key hxts hmr hM
          have k2 : dtKey (succDT m) ≤ dtKey db := tsLe_key hsmr hb h2
          omega
        have hS : tsLeB (renderTs (succDT m)) x.ts = false := by
          rcases hxs : tsLeB (renderTs (succDT m)) x.ts with _ | _
          · rfl
          · have k1 : dtKey dx ≤ dtKey m := tsLe_key hxts hmr hM
            have k2 : dtKey (succDT m) ≤ dtKey dx := tsLe_key hsmr hxts hxs
            omega
        simp only [inRangeB, hty, hM, hB, hS, Bool.and_true, Bool.false_and,
          Bool.and_false]
        simp
      · have hMf : tsLeB x.ts (renderTs m) = false := by
          rcases hxs : tsLeB x.ts (renderTs m) with _ | _
          · rfl
          · exact absurd hxs hM
        have hkmx : dtKey m < dtKey dx := tsLe_false_key hxts hmr hMf
        have hS : tsLeB (renderTs (succDT m)) x.ts = true := by
          refine key_le_tsLe hsmr hxts ?_
          have s1 : secs m < secs dx := (dtKey_lt_iff_secs_lt hm hdx).mp hkmx
          have s2 : secs (succDT m) ≤ secs dx := by rw [secs_succDT hm]; omega
          exact (dtKey_le_iff_secs_le hsm hdx).mpr s2
        have hMS : tsLeB (renderTs m) (renderTs (succDT m)) = true :=
          key_le_tsLe hmr hsmr (le_of_lt hkm)
        have hA : tsLeB a x.ts = true := tsLeB_trans h1 (tsLeB_trans hMS hS)
        simp only [inRangeB, hty, hMf, hS, hA, Bool.true_and, Bool.and_true,
          Bool.and_false, Bool.false_and]
        simp
    · have htyf : typeOk types x = false := by
        rcases hxs : typeOk types x with _ | _
        · rfl
        · exact absurd hxs hty
      simp only [inRangeB, htyf, Bool.and_false]
      simp

/-! ## Analytics derivations (routes_metrics.py) -/

def toLowerC (c : Char) : Char :=
  if 65 ≤ c.toNat ∧ c.toNat ≤ 90 then Char.ofNat (c.toNat + 32) else c

def lowerChars (l : List Char) : List Char := l.map toLowerC

/-- Model of status_is: the stored status is stripped, both sides are
lowercased (ASCII), then compared. -/
def statusIs (e : Event) (expected : String) : Bool :=
  lowerChars (stripChars e.status.data) = lowerChars expected.data

/-- Model of event_ts: strptime returning none instead of raising. -/
def eventTs (e : Event) : Option DT := parseTs e.ts.data

/-- Calendar-day key, date isoformat YYYY-MM-DD. -/
def dayKeyStr (d : DT) : String :=
  ⟨pad4 d.year ++ '-' :: (pad2 d.month ++ '-' :: pad2 d.day)⟩

/-- Single-pending-slot pairing loop of door_open_durations: an open
overwrites the pending slot, a close with a pending open emits the
non-negative span labelled by the open timestamp and clears the slot, a close
without a pending open is ignored. -/
def doorOpenDurationsGo : List Event → Option DT → List (DT × Nat)
  | [], _ => []
  | e :: rest, pending =>
    match parseTs e.ts.data with
    | none => doorOpenDurationsGo rest pending
    | some ts =>
      if e.event_type = "Door OPEN/UNLOCKED" then doorOpenDurationsGo rest (some ts)
      else if e.event_type = "Door CLOSED/LOCKED" then
        match pending with
        | some o =>
          if secs o ≤ secs ts then (o, secs ts - secs o) :: doorOpenDurationsGo rest none
          else doorOpenDurationsGo rest none
        | none => doorOpenDurationsGo rest pending
      else doorOpenDurationsGo rest pending

def doorOpenDurations (events : List Event) : List (DT × Nat) :=
  doorOpenDurationsGo events none

/-- String sort order used by the Python sorted builtin on the label keys. -/
def StrLe (s t : String) : Prop := tsLeB s t = true

instance : DecidableRel StrLe := fun s t => by unfold StrLe; infer_instance

instance : IsTotal String StrLe := ⟨fun s t => tsLeB_total s t⟩

instance : IsTrans String StrLe := ⟨fun _ _ _ => tsLeB_trans⟩

def sortStrs (l : List String) : List String := List.insertionSort StrLe l

/-- Floor of a rational as explicit integer division (denominators are
positive, so flooring division gives the true floor). -/
def ratFloorI (q : ℚ) : Int := Int.fdiv q.num (q.den : Int)

/-- Python round to three decimals, modelled exactly over the rationals
(float representation effects are outside the embedding; ties round half
up here versus banker rounding in Python, a difference the claims never
exercise). -/
def round3 (q : ℚ) : ℚ := ((ratFloorI (q * 1000 + 1 / 2) : ℤ) : ℚ) / 1000

/-- Common shape of every graph payload. -/
structure GraphOut where
  labels : List String
  values : List ℚ
  threshold_seconds : Option ℚ := none
deriving DecidableEq

def graphBadgeScansPerHour (events : List Event) : GraphOut :=
  { labels := (List.range 24).map (fun i => (⟨pad2 i⟩ : String)),
    values := (List.range 24).map (fun h =>
      ((events.filter (fun e => e.event_type = "Badge Scan" &&
        match eventTs e with
        | some ts => ts.hour = h
        | none => false)).length : ℚ)) }

def graphDoorOpenDuration (events : List Event) : GraphOut :=
  let durs := doorOpenDurations events
  let labels := sortStrs (durs.map (fun p => dayKeyStr p.1)).dedup
  { labels := labels,
    values := labels.map (fun k =>
      let vals := (durs.filter (fun p => dayKeyStr p.1 = k)).map
        (fun p => (p.2 : ℚ))
      round3 (vals.sum / (vals.length : ℚ))) }

/-- Badge key with the Python or-fallback: a missing or empty badge id counts
under the unknown key. -/
def badgeKeyOf (e : Event) : String :=
  match e.badge_id with
  | some s => if s = "" then "unknown" else s
  | none => "unknown"

/-- Dict-backed counter in insertion order. -/
def bumpCount : List (String × Nat) → String → List (String × Nat)
  | [], k => [(k, 1)]
  | (k2, c) :: rest, k =>
    if k2 = k then (k2, c + 1) :: rest else (k2, c) :: bumpCount rest k

def badgeCounts : List Event → List (String × Nat) → List (String × Nat)
  | [], acc => acc
  | e :: rest, acc =>
    if e.event_type = "Badge Scan" && statusIs e "Granted" then
      badgeCounts rest (bumpCount acc (badgeKeyOf e))
    else badgeCounts rest acc

/-- The sort key lambda item: (minus count, badge id): descending count then
ascending id. -/
def TopLe (p q : String × Nat) : Prop :=
  q.2 < p.2 ∨ (p.2 = q.2 ∧ tsLeB p.1 q.1 = true)

instance : DecidableRel TopLe := fun p q => by unfold TopLe; infer_instance

instance : IsTotal (String × Nat) TopLe :=
  ⟨fun p q => by
    unfold TopLe
    rcases Nat.lt_trichotomy p.2 q.2 with h | h | h
    · exact Or.inr (Or.inl h)
    · rcases tsLeB_total p.1 q.1 with ht | ht
      · exact Or.inl (Or.inr ⟨h, ht⟩)
      · exact Or.inr (Or.inr ⟨h.symm, ht⟩)
    · exact Or.inl (Or.inl h)⟩

instance : IsTrans (String × Nat) TopLe :=
  ⟨fun p q r hpq hqr => by
    unfold TopLe at hpq hqr ⊢
    rcases hpq with h1 | ⟨h1, ht1⟩ <;> rcases hqr with h2 | ⟨h2, ht2⟩
    · exact Or.inl (by omega)
    · exact Or.inl (by omega)
    · exact Or.inl (by omega)
    · exact Or.inr ⟨by omega, tsLeB_trans ht1 ht2⟩⟩

def graphTopBadgeUsers (events : List Event) : GraphOut :=
  let ordered := (List.insertionSort TopLe (badgeCounts events [])).take 10
  { labels := ordered.map Prod.fst,
    values := ordered.map (fun p => (p.2 : ℚ)) }

/-- Shared shape of group_count based per-day graphs. -/
def dayCountGraph (p : Event → Bool) (events : List Event) : GraphOut :=
  let keyed := events.filterMap (fun e =>
    match eventTs e with
    | some ts => if p e then some (dayKeyStr ts) else none
    | none => none)
  let labels := sortStrs keyed.dedup
  { labels := labels, values := labels.map (fun k => ((keyed.count k : Nat) : ℚ)) }

def graphDoorCyclesPerDay (events : List Event) : GraphOut :=
  dayCountGraph (fun e => e.event_type = "Door OPEN/UNLOCKED") events

def graphDeniedBadgeScans (events : List Event) : GraphOut :=
  dayCountGraph (fun e => e.event_type = "Badge Scan" && statusIs e "Denied") events

def truthyBadge (e : Event) : Bool :=
  match e.badge_id with
  | some s => s ≠ ""
  | none => false

def badgeStr (e : Event) : String := e.badge_id.getD ""

/-- Per-badge FIFO pairing loop of the latency graph: a granted scan with a
truthy badge id enqueues its timestamp; a door-open with a truthy badge id
dequeues the oldest pending scan for that badge when one exists, emitting the
difference only when non-negative; an open with an empty queue does nothing. -/
def latencyGo : List Event → (String → List DT) → List (DT × Nat)
  | [], _ => []
  | e :: rest, q =>
    match parseTs e.ts.data with
    | none => latencyGo rest q
    | some ts =>
      if e.event_type = "Badge Scan" && statusIs e "Granted" && truthyBadge e then
        latencyGo rest (fun k => if k = badgeStr e then q k ++ [ts] else q k)
      else if e.event_type = "Door OPEN/UNLOCKED" && truthyBadge e then
        match q (badgeStr e) with
        | [] => latencyGo rest q
        | s :: ss =>
          if secs s ≤ secs ts then
            (ts, secs ts - secs s) ::
              latencyGo rest (fun k => if k = badgeStr e then ss else q k)
          else latencyGo rest (fun k => if k = badgeStr e then ss else q k)
      else latencyGo rest q

def graphBadgeScanLatency (events : List Event) : GraphOut :=
  let pairs := latencyGo events (fun _ => [])
  { labels := pairs.map (fun p => renderTs p.1),
    values := pairs.map (fun p => round3 ((p.2 : ℚ))) }

def graphManualEvents (events : List Event) : GraphOut :=
  let keyedU := events.filterMap (fun e =>
    match eventTs e with
    | some ts => if e.event_type = "Manual Unlock (1 hour)" then some (dayKeyStr ts)
      else none
    | none => none)
  let keyedL := events.filterMap (fun e =>
    match eventTs e with
    | some ts => if e.event_type = "Manual Lock" then some (dayKeyStr ts) else none
    | none => none)
  let labels := sortStrs (keyedU ++ keyedL).dedup
  { labels := labels,
    values := labels.map (fun k => ((keyedU.count k + keyedL.count k : Nat) : ℚ)) }

def graphDoorLeftOpen (cfgDur : Int) (events : List Event) : GraphOut :=
  let threshold : Int := max 30 (cfgDur * 2)
  let durs := doorOpenDurations events
  let over := durs.filter (fun p => threshold < (p.2 : Int))
  let labels := sortStrs (over.map (fun p => dayKeyStr p.1)).dedup
  { labels := labels,
    values := labels.map (fun k =>
      ((over.filter (fun p => dayKeyStr p.1 = k)).length : ℚ)),
    threshold_seconds := some ((threshold : ℚ)) }

/-- Python weekday: 0 is Monday; day 0 of the proleptic calendar (0001-01-01)
is a Monday. -/
def weekdayOf (d : DT) : Nat := dayNumber d % 7

def heatmapDayNames : List String := ["Mon", "Tue", "Wed", "Thu", "Fri", "Sat", "Sun"]

def graphHeatmap (events : List Event) : GraphOut :=
  { labels := (List.range 7).flatMap (fun di => (List.range 24).map (fun h =>
      (⟨(heatmapDayNames.getD di "").data ++ '-' :: pad2 h⟩ : String))),
    values := (List.range 7).flatMap (fun di => (List.range 24).map (fun h =>
      ((events.filter (fun e =>
        match eventTs e with
        | some ts => weekdayOf ts = di ∧ ts.hour = h
        | none => false)).length : ℚ))) }

/-- Model of parse_int: clamp a parsed value into bounds; an unparsable value
(none) yields the default. -/
def parseIntClamped (v : Option Int) (dflt minimum maximum : Int) : Int :=
  match v with
  | none => dflt
  | some x => if x < minimum then minimum else if maximum < x then maximum else x

structure TimelinePage where
  page : Int
  page_size : Int
  total : Nat
  total_pages : Nat
  items : List Event
deriving DecidableEq

/-- Model of the timeline endpoint: clamp page and page size, compute the
page count (exact ceiling), clamp the page to the last page, slice. -/
def timelinePage (events : List Event) (pageQ pageSizeQ : Option Int) : TimelinePage :=
  let page0 := parseIntClamped pageQ 1 1 500
  let pageSize := parseIntClamped pageSizeQ 50 1 500
  let total := events.length
  let totalPages : Nat :=
    if total = 0 then 1 else max 1 ((total + pageSize.toNat - 1) / pageSize.toNat)
  let page := min page0 (totalPages : Int)
  let startIdx := ((page - 1) * pageSize).toNat
  { page := page, page_size := pageSize, total := total, total_pages := totalPages,
    items := (events.drop startIdx).take pageSize.toNat }

/-- Calendar date triple (datetime.date). -/
structure DateD where
  year : Nat
  month : Nat
  day : Nat
deriving DecidableEq, Repr

def dateLtD (d e : DateD) : Prop :=
  d.year < e.year ∨ (d.year = e.year ∧ (d.month < e.month ∨
    (d.month = e.month ∧ d.day < e.day)))

instance (d e : DateD) : Decidable (dateLtD d e) := by unfold dateLtD; infer_instance

/-- Model of resolve_range: parsed (or defaulted) start and end dates, swapped
when reversed, expanded to a midnight-to-end-of-day timestamp range. A none
query value stands for a missing or unparsable date parameter, which
parse_date turns into the default. -/
def resolveRange (now : DT) (startQ endQ : Option DateD) : DateD × DateD × DT × DT :=
  let defaultStart : DateD := ⟨now.year, 1, 1⟩
  let defaultEnd : DateD := ⟨now.year, now.month, now.day⟩
  let sd0 := startQ.getD defaultStart
  let ed0 := endQ.getD defaultEnd
  let sd := if dateLtD ed0 sd0 then ed0 else sd0
  let ed := if dateLtD ed0 sd0 then sd0 else ed0
  (sd, ed, ⟨sd.year, sd.month, sd.day, 0, 0, 0⟩, ⟨ed.year, ed.month, ed.day, 23, 59, 59⟩)

/-! ## CSV export (month_events_to_csv) -/

def csvNeedsQuote (l : List Char) : Bool :=
  l.any (fun c => c = ',' ∨ c = '"' ∨ c = '\r' ∨ c = '\n')

def csvEscape : List Char → List Char
  | [] => []
  | c :: cs => if c = '"' then '"' :: '"' :: csvEscape cs else c :: csvEscape cs

/-- One field under QUOTE_MINIMAL: quoted with doubled quote characters only
when it contains a delimiter, a quote or a line-break character. -/
def csvField (l : List Char) : List Char :=
  if csvNeedsQuote l then '"' :: (csvEscape l ++ ['"']) else l

/-- The optional badge column: None renders as an empty field. -/
def csvOptField : Option String → List Char
  | none => []
  | some s => csvField s.data

def crlf : List Char := ['\r', '\n']

/-- One data row in the fixed field order. -/
def csvRow (e : Event) : List Char :=
  csvField e.ts.data ++ ',' :: (csvField e.event_type.data ++ ',' ::
    (csvOptField e.badge_id ++ ',' :: (csvField e.status.data ++ ',' ::
      csvField e.raw_message.data)))

def csvHeader : List Char := "ts,event_type,badge_id,status,raw_message".data

/-- Model of month_events_to_csv (csv.writer with default dialect: comma
delimiter, CRLF line terminator, minimal quoting). -/
def monthEventsToCsv (events : List Event) : String :=
  ⟨csvHeader ++ crlf ++ events.flatMap (fun e => csvRow e ++ crlf)⟩

/-! ## Graph handler table -/

def graphHandlerNames : List String :=
  ["badge-scans-per-hour", "door-open-duration", "top-badge-users",
   "door-cycles-per-day", "denied-badge-scans", "badge-scan-door-open-latency",
   "manual-events", "door-left-open-too-long", "hourly-activity-heatmap"]

/-- The GRAPH_HANDLERS dispatch table (none for an unknown graph key, which
the route turns into a 404). -/
def graphHandler (cfgDur : Int) (name : String) (events : List Event) :
    Option GraphOut :=
  if name = "badge-scans-per-hour" then some (graphBadgeScansPerHour events)
  else if name = "door-open-duration" then some (graphDoorOpenDuration events)
  else if name = "top-badge-users" then some (graphTopBadgeUsers events)
  else if name = "door-cycles-per-day" then some (graphDoorCyclesPerDay events)
  else if name = "denied-badge-scans" then some (graphDeniedBadgeScans events)
  else if name = "badge-scan-door-open-latency" then
    some (graphBadgeScanLatency events)
  else if name = "manual-events" then some (graphManualEvents events)
  else if name = "door-left-open-too-long" then some (graphDoorLeftOpen cfgDur events)
  else if name = "hourly-activity-heatmap" then some (graphHeatmap events)
  else none

/-! ## Claim theorems -/

def poisonLine : List Char :=
  "2025-01-01 10:00:00 - door - INFO - Foo - Status: ok - Badge: 5".data

def goodLine : List Char :=
  "2025-01-01 11:00:00 - door - INFO - Badge Scan - Badge: 42 - Status: Granted".data

/-- C1 (code bug): parsing is not raise-free. On a line whose status marker
occurs only before its badge marker, parse_action_message checks both markers
against the whole message but rsplits the text after the badge marker, gets a
single part, and the two-name unpacking raises ValueError; the exception
propagates through ingest_action_log_file, so that line aborts ingestion of
the remaining lines (the same file without it ingests and counts the later
parseable line). -/
theorem C1_parse_crash_aborts_ingest :
    parseActionLogLine poisonLine = .error () ∧
    parseActionLogLine goodLine = .ok (some
      ⟨"2025-01-01 11:00:00", "Badge Scan", some "42", "Granted", ⟨goodLine⟩⟩) ∧
    ingestLines [poisonLine, goodLine] = .error () ∧
    ingestLines [goodLine] = .ok ([("2025-01",
      [⟨"2025-01-01 11:00:00", "Badge Scan", some "42", "Granted", ⟨goodLine⟩⟩])], 1) := by
  refine ⟨rfl, rfl, rfl, rfl⟩

/-- C10: resolve_range swaps a reversed date pair, so reversed date
parameters resolve to exactly the same range; the resolved timestamps always
span midnight of the start day to 23:59:59 of the end day, and the resolved
start date is never after the resolved end date. -/
theorem C10_resolve_range_swap (now : DT) (a b : DateD)
    (startQ endQ : Option DateD) :
    resolveRange now (some a) (some b) = resolveRange now (some b) (some a) ∧
    (resolveRange now startQ endQ).2.2.1 =
      ⟨(resolveRange now startQ endQ).1.year, (resolveRange now startQ endQ).1.month,
       (resolveRange now startQ endQ).1.day, 0, 0, 0⟩ ∧
    (resolveRange now startQ endQ).2.2.2 =
      ⟨(resolveRange now startQ endQ).2.1.year, (resolveRange now startQ endQ).2.1.month,
       (resolveRange now startQ endQ).2.1.day, 23, 59, 59⟩ ∧
    ¬ dateLtD (resolveRange now startQ endQ).2.1 (resolveRange now startQ endQ).1 := by
  refine ⟨?_, ?_, ?_, ?_⟩
  · unfold resolveRange
    simp only [Option.getD_some]
    by_cases h1 : dateLtD b a <;> by_cases h2 : dateLtD a b
    · obtain ⟨y1, m1, d1⟩ := a
      obtain ⟨y2, m2, d2⟩ := b
      unfold dateLtD at h1 h2
      dsimp only at h1 h2
      omega
    · rw [if_pos h1, if_pos h1, if_neg h2, if_neg h2]
    · rw [if_neg h1, if_neg h1, if_pos h2, if_pos h2]
    · have hab : a = b := by
        obtain ⟨y1, m1, d1⟩ := a
        obtain ⟨y2, m2, d2⟩ := b
        unfold dateLtD at h1 h2
        dsimp only at h1 h2
        simp only [DateD.mk.injEq]
        omega
      subst hab
      rfl
  · unfold resolveRange
    dsimp only
  · unfold resolveRange
    dsimp only
  · unfold resolveRange
    dsimp only
    split_ifs with h
    · unfold dateLtD at h ⊢
      omega
    · exact h

def openEv (t : String) : Event := ⟨t, "Door OPEN/UNLOCKED", none, "Success", "r"⟩

def closeEv (t : String) : Event := ⟨t, "Door CLOSED/LOCKED", none, "Success", "r"⟩

theorem doorGo_cons (e : Event) (rest : List Event) (pending : Option DT) :
    doorOpenDurationsGo (e :: rest) pending =
      match parseTs e.ts.data with
      | none => doorOpenDurationsGo rest pending
      | some ts =>
        if e.event_type = "Door OPEN/UNLOCKED" then doorOpenDurationsGo rest (some ts)
        else if e.event_type = "Door CLOSED/LOCKED" then
          match pending with
          | some o =>
            if secs o ≤ secs ts then
              (o, secs ts - secs o) :: doorOpenDurationsGo rest none
            else doorOpenDurationsGo rest none
          | none => doorOpenDurationsGo rest pending
        else doorOpenDurationsGo rest pending := rfl

set_option maxRecDepth 10000 in
/-- C4: the duration pairing uses one pending open slot: an open (re)sets the
slot whatever it held, a close with a pending open emits the non-negative
span keyed by the open timestamp and clears the slot, a close with no pending
open contributes nothing; open at 10:00 and close at 10:05 produce 300
seconds for that day (graph value 300), a second open before the close
overrides the first, and the per-day average is rounded to three decimals
(three pairs of 1, 1 and 2 seconds average to 1.333). -/
theorem C4_duration_pairing :
    (∀ (e : Event) (rest : List Event) (pending : Option DT) (ts : DT),
      parseTs e.ts.data = some ts → e.event_type = "Door OPEN/UNLOCKED" →
      doorOpenDurationsGo (e :: rest) pending = doorOpenDurationsGo rest (some ts)) ∧
    (∀ (e : Event) (rest : List Event) (ts : DT),
      parseTs e.ts.data = some ts → e.event_type = "Door CLOSED/LOCKED" →
      doorOpenDurationsGo (e :: rest) none = doorOpenDurationsGo rest none) ∧
    (∀ (e : Event) (rest : List Event) (o ts : DT),
      parseTs e.ts.data = some ts → e.event_type = "Door CLOSED/LOCKED" →
      secs o ≤ secs ts →
      doorOpenDurationsGo (e :: rest) (some o) =
        (o, secs ts - secs o) :: doorOpenDurationsGo rest none) ∧
    doorOpenDurations [openEv "2025-06-01 10:00:00", closeEv "2025-06-01 10:05:00"] =
      [(⟨2025, 6, 1, 10, 0, 0⟩, 300)] ∧
    graphDoorOpenDuration [openEv "2025-06-01 10:00:00", closeEv "2025-06-01 10:05:00"] =
      ⟨["2025-06-01"], [300], none⟩ ∧
    doorOpenDurations [closeEv "2025-06-01 09:00:00", openEv "2025-06-01 10:00:00",
      openEv "2025-06-01 10:01:00", closeEv "2025-06-01 10:05:00"] =
      [(⟨2025, 6, 1, 10, 1, 0⟩, 240)] ∧
    (graphDoorOpenDuration [openEv "2025-06-01 10:00:00", closeEv "2025-06-01 10:00:01",
      openEv "2025-06-01 11:00:00", closeEv "2025-06-01 11:00:01",
      openEv "2025-06-01 12:00:00", closeEv "2025-06-01 12:00:02"]).values =
      [1333 / 1000] := by
  refine ⟨?_, ?_, ?_, by decide, by with_unfolding_all decide, by decide,
    by with_unfolding_all decide⟩
  · intro e rest pending ts hts htype
    rw [doorGo_cons, hts]
    dsimp only
    rw [if_pos htype]
  · intro e rest ts hts htype
    rw [doorGo_cons, hts]
    dsimp only
    rw [if_neg (by rw [htype]; decide), if_pos htype]
  · intro e rest o ts hts htype hle
    rw [doorGo_cons, hts]
    dsimp only
    rw [if_neg (by rw [htype]; decide), if_pos htype]
    rw [if_pos hle]

def scanEv (t b : String) : Event := ⟨t, "Badge Scan", some b, "Granted", "r"⟩

def openBEv (t b : String) : Event := ⟨t, "Door OPEN/UNLOCKED", some b, "Success", "r"⟩

theorem latencyGo_cons (e : Event) (rest : List Event) (q : String → List DT) :
    latencyGo (e :: rest) q =
      match parseTs e.ts.data with
      | none => latencyGo rest q
      | some ts =>
        if e.event_type = "Badge Scan" && statusIs e "Granted" && truthyBadge e then
          latencyGo rest (fun k => if k = badgeStr e then q k ++ [ts] else q k)
        else if e.event_type = "Door OPEN/UNLOCKED" && truthyBadge e then
          match q (badgeStr e) with
          | [] => latencyGo rest q
          | s :: ss =>
            if secs s ≤ secs ts then
              (ts, secs ts - secs s) ::
                latencyGo rest (fun k => if k = badgeStr e then ss else q k)
            else latencyGo rest (fun k => if k = badgeStr e then ss else q k)
        else latencyGo rest q := rfl

set_option maxRecDepth 10000 in
/-- C5: the latency pairing keeps one FIFO queue of pending granted-scan
timestamps per badge id: a granted scan with a truthy badge id appends to its
queue, a door-open with a truthy badge id dequeues the oldest pending scan of
that badge and emits the difference exactly when non-negative, an open with
an empty queue emits nothing and leaves every queue unchanged (unmatched
scans stay queued); scan of badge A at 09:00:00 then open of A at 09:00:02
yields the single 2-second sample, and a second open of A with no further
scan adds no sample. -/
theorem C5_latency_pairing :
    (∀ (e : Event) (rest : List Event) (q : String → List DT) (ts : DT),
      parseTs e.ts.data = some ts → e.event_type = "Badge Scan" →
      statusIs e "Granted" = true → truthyBadge e = true →
      latencyGo (e :: rest) q =
        latencyGo rest (fun k => if k = badgeStr e then q k ++ [ts] else q k)) ∧
    (∀ (e : Event) (rest : List Event) (q : String → List DT) (ts : DT),
      parseTs e.ts.data = some ts → e.event_type = "Door OPEN/UNLOCKED" →
      truthyBadge e = true → q (badgeStr e) = [] →
      latencyGo (e :: rest) q = latencyGo rest q) ∧
    (∀ (e : Event) (rest : List Event) (q : String → List DT) (ts s : DT)
      (ss : List DT),
      parseTs e.ts.data = some ts → e.event_type = "Door OPEN/UNLOCKED" →
      truthyBadge e = true → q (badgeStr e) = s :: ss →
      latencyGo (e :: rest) q =
        (if secs s ≤ secs ts then [(ts, secs ts - secs s)] else []) ++
          latencyGo rest (fun k => if k = badgeStr e then ss else q k)) ∧
    graphBadgeScanLatency [scanEv "2025-06-01 09:00:00" "A",
      openBEv "2025-06-01 09:00:02" "A"] = ⟨["2025-06-01 09:00:02"], [2], none⟩ ∧
    graphBadgeScanLatency [scanEv "2025-06-01 09:00:00" "A",
      openBEv "2025-06-01 09:00:02" "A", openBEv "2025-06-01 09:10:00" "A"] =
      ⟨["2025-06-01 09:00:02"], [2], none⟩ := by
  refine ⟨?_, ?_, ?_, by with_unfolding_all decide, by with_unfolding_all decide⟩
  · intro e rest q ts hts htype hstat htru
    rw [latencyGo_cons, hts]
    dsimp only
    rw [if_pos (by simp [htype, hstat, htru])]
  · intro e rest q ts hts htype htru hq
    rw [latencyGo_cons, hts]
    dsimp only
    rw [if_neg (by simp [htype]), if_pos (by simp [htype, htru]), hq]
  · intro e rest q ts s ss hts htype htru hq
    rw [latencyGo_cons, hts]
    dsimp only
    rw [if_neg (by simp [htype]), if_pos (by simp [htype, htru]), hq]
    dsimp only
    by_cases hle : secs s ≤ secs ts
    · rw [if_pos hle, if_pos hle]
      rfl
    · rw [if_neg hle, if_neg hle]
      rfl

/-- Reference count: granted badge scans under a given badge key. -/
def grantedScanCount (events : List Event) (b : String) : Nat :=
  (events.filter (fun e => e.event_type = "Badge Scan" && statusIs e "Granted" &&
    badgeKeyOf e = b)).length

def alookup : List (String × Nat) → String → Nat
  | [], _ => 0
  | (k2, c) :: rest, k => if k2 = k then c else alookup rest k

theorem alookup_bump (acc : List (String × Nat)) (k k2 : String) :
    alookup (bumpCount acc k) k2 = alookup acc k2 + (if k = k2 then 1 else 0) := by
  induction acc with
  | nil =>
    by_cases h : k = k2 <;> simp [bumpCount, alookup, h]
  | cons p rest ih =>
    obtain ⟨k3, c⟩ := p
    by_cases h3 : k3 = k
    · subst h3
      simp only [bumpCount, if_pos rfl, alookup]
      by_cases h : k3 = k2 <;> simp [h]
    · simp only [bumpCount, if_neg h3, alookup]
      by_cases h : k3 = k2
      · subst h
        have : ¬ k = k3 := fun hc => h3 hc.symm
        simp [this]
      · simp [h, ih]

theorem grantedScanCount_cons (e : Event) (rest : List Event) (b : String) :
    grantedScanCount (e :: rest) b = grantedScanCount rest b +
      (if (e.event_type = "Badge Scan" && statusIs e "Granted" &&
        badgeKeyOf e = b) = true then 1 else 0) := by
  unfold grantedScanCount
  rw [List.filter_cons]
  by_cases h : (e.event_type = "Badge Scan" && statusIs e "Granted" &&
      decide (badgeKeyOf e = b)) = true
  · rw [if_pos h, if_pos (by simpa using h)]
    simp
  · rw [if_neg h, if_neg (by simpa using h)]
    simp

theorem badgeCounts_cons (e : Event) (rest : List Event) (acc : List (String × Nat)) :
    badgeCounts (e :: rest) acc =
      if (e.event_type = "Badge Scan" && statusIs e "Granted") = true then
        badgeCounts rest (bumpCount acc (badgeKeyOf e))
      else badgeCounts rest acc := by
  rfl

theorem alookup_badgeCounts (events : List Event) :
    ∀ (acc : List (String × Nat)) (b : String),
      alookup (badgeCounts events acc) b = alookup acc b + grantedScanCount events b := by
  induction events with
  | nil => intro acc b; simp [badgeCounts, grantedScanCount]
  | cons e rest ih =>
    intro acc b
    rw [badgeCounts_cons, grantedScanCount_cons]
    by_cases hcond : (e.event_type = "Badge Scan" && statusIs e "Granted") = true
    · rw [if_pos hcond, ih, alookup_bump]
      by_cases hkey : badgeKeyOf e = b
      · rw [if_pos hkey, if_pos (by simp [hcond, hkey])]
        omega
      · rw [if_neg hkey, if_neg (by simp [hkey])]
        omega
    · rw [if_neg hcond, ih,
        if_neg (by simp only [Bool.and_eq_true] at hcond ⊢; tauto)]
      omega

theorem mem_keys_bump {acc : List (String × Nat)} {k k2 : String}
    (h : k2 ∈ (bumpCount acc k).map Prod.fst) :
    k2 ∈ acc.map Prod.fst ∨ k2 = k := by
  induction acc with
  | nil =>
    simp only [bumpCount, List.map_cons, List.map_nil, List.mem_singleton] at h
    exact Or.inr h
  | cons p rest ih =>
    obtain ⟨k3, c⟩ := p
    by_cases h3 : k3 = k
    · subst h3
      have hb : bumpCount ((k3, c) :: rest) k3 = (k3, c + 1) :: rest := by
        simp [bumpCount]
      rw [hb] at h
      simp only [List.map_cons, List.mem_cons] at h ⊢
      exact Or.inl h
    · simp only [bumpCount, if_neg h3, List.map_cons, List.mem_cons] at h ⊢
      rcases h with h | h
      · exact Or.inl (Or.inl h)
      · rcases ih h with h2 | h2
        · exact Or.inl (Or.inr h2)
        · exact Or.inr h2

theorem nodupKeys_bump {acc : List (String × Nat)} {k : String}
    (h : (acc.map Prod.fst).Nodup) : ((bumpCount acc k).map Prod.fst).Nodup := by
  induction acc with
  | nil => simp [bumpCount]
  | cons p rest ih =>
    obtain ⟨k3, c⟩ := p
    simp only [List.map_cons, List.nodup_cons] at h
    obtain ⟨hnm, hnd⟩ := h
    by_cases h3 : k3 = k
    · subst h3
      have hb : bumpCount ((k3, c) :: rest) k3 = (k3, c + 1) :: rest := by
        simp [bumpCount]
      rw [hb]
      simp only [List.map_cons, List.nodup_cons]
      exact ⟨hnm, hnd⟩
    · simp only [bumpCount, if_neg h3, List.map_cons, List.nodup_cons]
      refine ⟨?_, ih hnd⟩
      intro hmem
      rcases mem_keys_bump hmem with h2 | h2
      · exact hnm h2
      · exact h3 h2

theorem nodupKeys_badgeCounts (events : List Event) :
    ∀ acc : List (String × Nat), (acc.map Prod.fst).Nodup →
      ((badgeCounts events acc).map Prod.fst).Nodup := by
  induction events with
  | nil => intro acc h; exact h
  | cons e rest ih =>
    intro acc h
    by_cases hcond : (e.event_type = "Badge Scan" && statusIs e "Granted") = true
    · simp only [badgeCounts, hcond, if_true]
      exact ih _ (nodupKeys_bump h)
    · simp only [badgeCounts, hcond, if_false]
      exact ih _ h

theorem alookup_of_mem {l : List (String × Nat)} (h : (l.map Prod.fst).Nodup)
    {p : String × Nat} (hp : p ∈ l) : alookup l p.1 = p.2 := by
  induction l with
  | nil => simp at hp
  | cons q rest ih =>
    obtain ⟨k3, c⟩ := q
    simp only [List.map_cons, List.nodup_cons] at h
    obtain ⟨hnm, hnd⟩ := h
    rcases List.mem_cons.mp hp with hp2 | hp2
    · subst hp2
      simp [alookup]
    · have hne : k3 ≠ p.1 := by
        intro hc
        exact hnm (hc ▸ (List.mem_map.mpr ⟨p, hp2, rfl⟩))
      simp only [alookup, if_neg hne]
      exact ih hnd hp2

set_option maxRecDepth 10000 in
/-- C6: the top-badge derivation ranks by descending granted-scan count with
ties broken by ascending badge id and keeps at most ten entries, each label
paired with exactly its granted-scan count; the scans A times 5, B times 5,
C times 1 rank as A, B, C with values 5, 5, 1. -/
theorem C6_top_badge_users :
    (∀ events : List Event, ∃ ordered : List (String × Nat),
      (graphTopBadgeUsers events).labels = ordered.map Prod.fst ∧
      (graphTopBadgeUsers events).values = ordered.map (fun p => ((p.2 : Nat) : ℚ)) ∧
      List.Sorted TopLe ordered ∧
      ordered.length ≤ 10 ∧
      (∀ p ∈ ordered, p.2 = grantedScanCount events p.1)) ∧
    graphTopBadgeUsers [scanEv "2025-06-01 09:00:00" "A",
      scanEv "2025-06-01 09:01:00" "A", scanEv "2025-06-01 09:02:00" "A",
      scanEv "2025-06-01 09:03:00" "A", scanEv "2025-06-01 09:04:00" "A",
      scanEv "2025-06-01 09:00:30" "B", scanEv "2025-06-01 09:01:30" "B",
      scanEv "2025-06-01 09:02:30" "B", scanEv "2025-06-01 09:03:30" "B",
      scanEv "2025-06-01 09:04:30" "B", scanEv "2025-06-01 09:05:00" "C"] =
      ⟨["A", "B", "C"], [5, 5, 1], none⟩ := by
  refine ⟨?_, by with_unfolding_all decide⟩
  intro events
  refine ⟨(List.insertionSort TopLe (badgeCounts events [])).take 10,
    rfl, rfl, ?_, List.length_take_le 10 _, ?_⟩
  · exact List.Pairwise.sublist (List.take_sublist 10 _)
      (List.sorted_insertionSort TopLe _)
  · intro p hp
    have hp2 : p ∈ List.insertionSort TopLe (badgeCounts events []) :=
      List.take_subset 10 _ hp
    have hp3 : p ∈ badgeCounts events [] := by
      rw [← List.mem_insertionSort TopLe]
      exact hp2
    have hlook := alookup_of_mem (nodupKeys_badgeCounts events [] (by simp)) hp3
    rw [alookup_badgeCounts events [] p.1] at hlook
    simp only [alookup] at hlook
    omega

theorem timelinePage_fields (events : List Event) (pq psq : Option Int) :
    1 ≤ (timelinePage events pq psq).page_size ∧
    (timelinePage events pq psq).page_size ≤ 500 ∧
    1 ≤ (timelinePage events pq psq).total_pages ∧
    1 ≤ (timelinePage events pq psq).page ∧
    (timelinePage events pq psq).page ≤ ((timelinePage events pq psq).total_pages : Int) := by
  unfold timelinePage parseIntClamped
  dsimp only
  have htp : 1 ≤ (if events.length = 0 then 1 else
      max 1 ((events.length + (match psq with
        | none => (50 : Int)
        | some x => if x < 1 then 1 else if 500 < x then 500 else x).toNat - 1) /
        (match psq with
        | none => (50 : Int)
        | some x => if x < 1 then 1 else if 500 < x then 500 else x).toNat)) := by
    split_ifs
    · omega
    · exact le_max_left 1 _
  rcases pq with _ | x <;> rcases psq with _ | y <;>
    refine ⟨?_, ?_, ?_, ?_, ?_⟩ <;>
    (dsimp only at htp ⊢; split_ifs at htp ⊢ <;> omega)

theorem timelinePage_eq_of_minEq (events : List Event) (p q2 : Int)
    (psq : Option Int)
    (h : min (parseIntClamped (some p) 1 1 500)
        ((timelinePage events (some p) psq).total_pages : Int) =
      min (parseIntClamped (some q2) 1 1 500)
        ((timelinePage events (some p) psq).total_pages : Int)) :
    timelinePage events (some p) psq = timelinePage events (some q2) psq := by
  unfold timelinePage at h ⊢
  dsimp only at h ⊢
  rw [h]

set_option maxRecDepth 20000 in
/-- C7 counterexample: with 501 single-item pages, requesting page 502 (which
is beyond the last available page 501) yields page 500, not the last page:
the page number is clamped to the 500 maximum before the last-page clamp, so
the claim as stated fails once the page count exceeds 500. -/
theorem C7_counterexample :
    (timelinePage (List.replicate 501 (scanEv "2025-06-01 09:00:00" "A"))
      (some 502) (some 1)).total_pages = 501 ∧
    (timelinePage (List.replicate 501 (scanEv "2025-06-01 09:00:00" "A"))
      (some 502) (some 1)).page = 500 := by
  constructor
  · decide
  · decide

set_option maxRecDepth 10000 in
/-- C7 (amended): page size and page number are clamped into the 1..500
bounds, the returned page never exceeds the page count, and a requested page
at or beyond the last available page is clamped to the last page whenever the
page count is within the 500 cap (in general the page is the minimum of the
clamped request and the page count); five items at page size two: page 3
returns exactly the fifth item with three total pages, and page 99 returns
the same response as page 3. -/
theorem C7_timeline_pagination :
    (∀ (events : List Event) (pq psq : Option Int),
      1 ≤ (timelinePage events pq psq).page_size ∧
      (timelinePage events pq psq).page_size ≤ 500 ∧
      1 ≤ (timelinePage events pq psq).total_pages ∧
      1 ≤ (timelinePage events pq psq).page ∧
      (timelinePage events pq psq).page ≤
        ((timelinePage events pq psq).total_pages : Int)) ∧
    (∀ (events : List Event) (p : Int) (psq : Option Int),
      ((timelinePage events (some p) psq).total_pages : Int) ≤ 500 →
      ((timelinePage events (some p) psq).total_pages : Int) ≤ p →
      timelinePage events (some p) psq =
        timelinePage events
          (some ((timelinePage events (some p) psq).total_pages : Int)) psq) ∧
    timelinePage [scanEv "2025-06-01 09:00:00" "A", scanEv "2025-06-01 09:01:00" "B",
      scanEv "2025-06-01 09:02:00" "C", scanEv "2025-06-01 09:03:00" "D",
      scanEv "2025-06-01 09:04:00" "E"] (some 3) (some 2) =
      ⟨3, 2, 5, 3, [scanEv "2025-06-01 09:04:00" "E"]⟩ ∧
    timelinePage [scanEv "2025-06-01 09:00:00" "A", scanEv "2025-06-01 09:01:00" "B",
      scanEv "2025-06-01 09:02:00" "C", scanEv "2025-06-01 09:03:00" "D",
      scanEv "2025-06-01 09:04:00" "E"] (some 99) (some 2) =
      ⟨3, 2, 5, 3, [scanEv "2025-06-01 09:04:00" "E"]⟩ := by
  refine ⟨timelinePage_fields, ?_, by decide, by decide⟩
  intro events p psq h500 hge
  have h1 : 1 ≤ (timelinePage events (some p) psq).total_pages :=
    (timelinePage_fields events (some p) psq).2.2.1
  apply timelinePage_eq_of_minEq
  unfold parseIntClamped
  dsimp only
  split_ifs <;> omega

theorem csvField_plain {l : List Char} (h : csvNeedsQuote l = false) :
    csvField l = l := by
  unfold csvField
  rw [h]
  rfl

/-- C8: the CSV export consists of the header row, then one CRLF-terminated
row per event in the fixed order timestamp, event type, badge id, status,
raw message; a field free of delimiters, quotes and line breaks renders
verbatim and an absent badge id renders as an empty field, so a single event
with an absent badge id produces exactly the header plus one data row with an
empty third field. -/
theorem C8_csv_export :
    (∀ events : List Event, (monthEventsToCsv events).data =
      csvHeader ++ crlf ++ events.flatMap (fun e => csvRow e ++ crlf)) ∧
    (∀ e : Event, e.badge_id = none →
      csvNeedsQuote e.ts.data = false → csvNeedsQuote e.event_type.data = false →
      csvNeedsQuote e.status.data = false → csvNeedsQuote e.raw_message.data = false →
      csvRow e = e.ts.data ++ ',' :: (e.event_type.data ++ ',' :: ',' ::
        (e.status.data ++ ',' :: e.raw_message.data))) ∧
    monthEventsToCsv [⟨"2026-02-01 00:00:00", "Badge Scan", none, "Granted", "msg"⟩] =
      "ts,event_type,badge_id,status,raw_message\r\n2026-02-01 00:00:00,Badge Scan,,Granted,msg\r\n" := by
  refine ⟨fun events => rfl, ?_, by decide⟩
  intro e hb h1 h2 h3 h4
  unfold csvRow csvOptField
  rw [hb]
  rw [csvField_plain h1, csvField_plain h2, csvField_plain h3, csvField_plain h4]
  rfl

theorem length_flatMap_const {α β : Type} (l : List α) (f : α → List β) (n : Nat)
    (h : ∀ a ∈ l, (f a).length = n) : (l.flatMap f).length = l.length * n := by
  induction l with
  | nil => simp
  | cons a as ih =>
    simp only [List.flatMap_cons, List.length_append, List.length_cons]
    rw [h a (List.mem_cons_self a as), ih (fun x hx => h x (List.mem_cons_of_mem a hx))]
    ring

theorem len_heatmap (events : List Event) :
    (graphHeatmap events).labels.length = (graphHeatmap events).values.length := by
  unfold graphHeatmap
  dsimp only
  rw [length_flatMap_const _ _ 24 (fun a _ => by simp),
    length_flatMap_const _ _ 24 (fun a _ => by simp)]

/-- C9: every one of the nine graph handlers returns labels and values of
equal length (parallel sequences) for every input event list; the dispatch
table has exactly nine registered names and answers none outside them. -/
theorem C9_graph_shapes :
    graphHandlerNames.length = 9 ∧
    (∀ (cfgDur : Int) (events : List Event) (name : String),
      name ∈ graphHandlerNames → (graphHandler cfgDur name events).isSome = true) ∧
    (∀ (cfgDur : Int) (events : List Event) (name : String) (g : GraphOut),
      graphHandler cfgDur name events = some g →
      g.labels.length = g.values.length) := by
  refine ⟨rfl, ?_, ?_⟩
  · intro cfgDur events name hmem
    unfold graphHandlerNames at hmem
    simp only [List.mem_cons, List.not_mem_nil, or_false] at hmem
    unfold graphHandler
    rcases hmem with h | h | h | h | h | h | h | h | h <;> subst h <;> simp
  · intro cfgDur events name g h
    unfold graphHandler at h
    split_ifs at h <;>
      first
        | exact Option.noConfusion h
        | (have hg := (Option.some.inj h).symm
           subst hg
           first
             | (unfold graphBadgeScansPerHour; simp)
             | (unfold graphDoorOpenDuration; simp)
             | (unfold graphTopBadgeUsers; simp)
             | (unfold graphDoorCyclesPerDay dayCountGraph; simp)
             | (unfold graphDeniedBadgeScans dayCountGraph; simp)
             | (unfold graphBadgeScanLatency; simp)
             | (unfold graphManualEvents; simp)
             | (unfold graphDoorLeftOpen; simp)
             | exact len_heatmap events)

/-! ## Concrete witness data -/

def wLine1 : List Char :=
  "2025-07-01 10:00:00 - door - INFO - Badge Scan - Badge: 7 - Status: Granted".data

def wLine2 : List Char :=
  "2025-06-30 23:59:59 - door - INFO - Door OPEN/UNLOCKED - Status: Success".data

def wEv1 : Event :=
  ⟨"2025-07-01 10:00:00", "Badge Scan", some "7", "Granted", ⟨wLine1⟩⟩

def wEv2 : Event :=
  ⟨"2025-06-30 23:59:59", "Door OPEN/UNLOCKED", none, "Success", ⟨wLine2⟩⟩

def wStore : Store := [("2025-07", [wEv1]), ("2025-06", [wEv2])]

theorem C2_roundtrip_query_witness :
    ∃ out, queryEventsRange wStore "2025-06-01 00:00:00" "2025-07-31 23:59:59" none =
        .ok out ∧
      List.Perm out (parsedEvents [wLine1, wLine2]) ∧ out.Sorted EvLe ∧
      2 = (parsedEvents [wLine1, wLine2]).length :=
  C2_roundtrip_query [wLine1, wLine2] wStore 2 "2025-06-01 00:00:00"
    "2025-07-31 23:59:59" ⟨2025, 6, 1, 0, 0, 0⟩ ⟨2025, 7, 31, 23, 59, 59⟩
    rfl rfl rfl (by decide)

def w3EvA : Event :=
  ⟨"2025-12-25 10:00:00", "Badge Scan", some "7", "Granted", "r"⟩

def w3EvB : Event :=
  ⟨"2026-01-03 09:00:00", "Badge Scan", some "8", "Denied", "r"⟩

def w3Store : Store := [("2025-12", [w3EvA]), ("2026-01", [w3EvB])]

theorem C3_fanout_merge_witness :
    ∃ o o1 o2,
      queryEventsRange w3Store "2025-12-20 00:00:00" "2026-01-05 23:59:59" none =
        .ok o ∧
      queryEventsRange w3Store "2025-12-20 00:00:00"
        (renderTs ⟨2025, 12, 31, 23, 59, 59⟩) none = .ok o1 ∧
      queryEventsRange w3Store (renderTs (succDT ⟨2025, 12, 31, 23, 59, 59⟩))
        "2026-01-05 23:59:59" none = .ok o2 ∧
      List.Perm o (o1 ++ o2) ∧
      monthKeysInRange ⟨2025, 12, 20, 0, 0, 0⟩ ⟨2026, 1, 5, 0, 0, 0⟩ =
        ["2025-12", "2026-01"] :=
  C3_fanout_merge w3Store (by decide) "2025-12-20 00:00:00" "2026-01-05 23:59:59"
    ⟨2025, 12, 31, 23, 59, 59⟩ ⟨2025, 12, 20, 0, 0, 0⟩ ⟨2026, 1, 5, 23, 59, 59⟩
    rfl rfl (by decide) (by decide) (by decide) (by decide) none

theorem C4_duration_pairing_witness :
    doorOpenDurationsGo [openEv "2025-06-01 10:00:00"] (some ⟨2025, 6, 1, 9, 0, 0⟩) =
      doorOpenDurationsGo [] (some ⟨2025, 6, 1, 10, 0, 0⟩) :=
  C4_duration_pairing.1 (openEv "2025-06-01 10:00:00") [] (some ⟨2025, 6, 1, 9, 0, 0⟩)
    ⟨2025, 6, 1, 10, 0, 0⟩ rfl rfl

theorem C5_latency_pairing_witness :
    latencyGo [scanEv "2025-06-01 09:00:00" "A"] (fun _ => []) =
      latencyGo [] (fun k =>
        if k = badgeStr (scanEv "2025-06-01 09:00:00" "A") then
          (fun _ => ([] : List DT)) k ++ [⟨2025, 6, 1, 9, 0, 0⟩]
        else (fun _ => ([] : List DT)) k) :=
  C5_latency_pairing.1 (scanEv "2025-06-01 09:00:00" "A") [] (fun _ => [])
    ⟨2025, 6, 1, 9, 0, 0⟩ rfl rfl (by decide) rfl

theorem C6_top_badge_users_witness :
    ∃ ordered : List (String × Nat),
      (graphTopBadgeUsers [scanEv "2025-06-01 09:00:00" "A"]).labels =
        ordered.map Prod.fst ∧
      (graphTopBadgeUsers [scanEv "2025-06-01 09:00:00" "A"]).values =
        ordered.map (fun p => ((p.2 : Nat) : ℚ)) ∧
      List.Sorted TopLe ordered ∧
      ordered.length ≤ 10 ∧
      (∀ p ∈ ordered, p.2 = grantedScanCount [scanEv "2025-06-01 09:00:00" "A"] p.1) :=
  C6_top_badge_users.1 [scanEv "2025-06-01 09:00:00" "A"]

theorem C7_timeline_pagination_witness :
    timelinePage [scanEv "2025-06-01 09:00:00" "A", scanEv "2025-06-01 09:01:00" "B",
      scanEv "2025-06-01 09:02:00" "C", scanEv "2025-06-01 09:03:00" "D",
      scanEv "2025-06-01 09:04:00" "E"] (some 99) (some 2) =
      timelinePage [scanEv "2025-06-01 09:00:00" "A", scanEv "2025-06-01 09:01:00" "B",
        scanEv "2025-06-01 09:02:00" "C", scanEv "2025-06-01 09:03:00" "D",
        scanEv "2025-06-01 09:04:00" "E"]
        (some ((timelinePage [scanEv "2025-06-01 09:00:00" "A",
          scanEv "2025-06-01 09:01:00" "B", scanEv "2025-06-01 09:02:00" "C",
          scanEv "2025-06-01 09:03:00" "D", scanEv "2025-06-01 09:04:00" "E"]
          (some 99) (some 2)).total_pages : Int)) (some 2) :=
  C7_timeline_pagination.2.1 [scanEv "2025-06-01 09:00:00" "A",
    scanEv "2025-06-01 09:01:00" "B", scanEv "2025-06-01 09:02:00" "C",
    scanEv "2025-06-01 09:03:00" "D", scanEv "2025-06-01 09:04:00" "E"] 99 (some 2)
    (by decide) (by decide)

theorem C8_csv_export_witness :
    csvRow ⟨"2026-02-01 00:00:00", "Badge Scan", none, "Granted", "msg"⟩ =
      ("2026-02-01 00:00:00" : String).data ++ ',' ::
        (("Badge Scan" : String).data ++ ',' :: ',' ::
          (("Granted" : String).data ++ ',' :: ("msg" : String).data)) :=
  C8_csv_export.2.1 ⟨"2026-02-01 00:00:00", "Badge Scan", none, "Granted", "msg"⟩
    rfl (by decide) (by decide) (by decide) (by decide)

theorem C9_graph_shapes_witness :
    (graphHeatmap []).labels.length = (graphHeatmap []).values.length :=
  C9_graph_shapes.2.2 5 [] "hourly-activity-heatmap" (graphHeatmap []) rfl

theorem C10_resolve_range_swap_witness :
    resolveRange ⟨2026, 2, 10, 8, 0, 0⟩ (some ⟨2026, 1, 5⟩) (some ⟨2025, 12, 20⟩) =
      resolveRange ⟨2026, 2, 10, 8, 0, 0⟩ (some ⟨2025, 12, 20⟩) (some ⟨2026, 1, 5⟩) :=
  (C10_resolve_range_swap ⟨2026, 2, 10, 8, 0, 0⟩ ⟨2026, 1, 5⟩ ⟨2025, 12, 20⟩
    (some ⟨2026, 1, 5⟩) (some ⟨2025, 12, 20⟩)).1
